import Mathlib

/-!
# clangd CodeLens: a shallow embedding of `CodeLens.cpp`

The development embeds `clang-tools-extra/clangd/CodeLens.cpp`
(`declToLocation`, `lookupIndex`, `visitDecl`, `getDocumentCodeLens`,
`resolveCodeLens`) as executable Lean functions and proves properties of the
document walk and of the deferred resolution.

Conventions of the embedding.

* The imperative accumulators of `visitDecl` (`Visited`, `Results`) are
  threaded explicitly through a `WalkState`.
* `std::vector::emplace_back` is `xs ++ [x]`, `std::set::emplace` of an
  absent key is `x :: xs` (only membership of the set is ever observed).
* `llvm::Expected<T>` is `Except String T`.
* `uint32_t` and `size_t` values are natural numbers; the translated code
  performs no arithmetic on them, so no wrap-around can occur.
* Functions of clang and clangd that `CodeLens.cpp` calls but does not
  define (source manager queries, `indexToLSPLocation`, `findReferences`,
  ...) are fields of the parameter structures `SourceManager` and
  `Externals`, so that every theorem holds for all their behaviours.
-/

namespace clangd

/-! ## Protocol data (`Protocol.h`) -/

/-- An LSP position: `Position` of `Protocol.h`. -/
structure Position where
  line : Nat
  character : Nat
  deriving DecidableEq, Repr

/-- An LSP range: `Range` of `Protocol.h`. -/
structure Range where
  start : Position
  «end» : Position
  deriving DecidableEq, Repr

/-- An LSP location: `Location` of `Protocol.h`. -/
structure Location where
  uri : String
  range : Range
  deriving DecidableEq, Repr

/-- The placeholder payload of an unresolved lens: `CodeLensResolveData`. -/
structure CodeLensResolveData where
  uri : String
  deriving DecidableEq, Repr

/-- The argument of a lens command: `CodeLensArgument`; default-constructed
as in `CodeLensArgument Sub, Super;`. -/
structure CodeLensArgument where
  uri : String := ""
  position : Position := ⟨0, 0⟩
  locations : List Location := []
  deriving DecidableEq, Repr

/-- A client command: `Command` with the fields `CodeLens.cpp` assigns. -/
structure Command where
  command : String := ""
  title : String := ""
  argument : Option CodeLensArgument := none
  deriving DecidableEq, Repr

/-- One annotation record: `CodeLens{range, command, data}`. -/
structure CodeLens where
  range : Range
  command : Option Command
  data : Option CodeLensResolveData
  deriving DecidableEq, Repr

/-! ## The declaration tree -/

/-- A `SourceLocation`, used as the de-duplication key of `Visited`. -/
abbrev SourceLocation := Nat

/-- A `SymbolID` of the index. -/
abbrev SymbolID := Nat

/-- A pointer to a declaration that is only passed to `declToLocation`
(a type parent or an overridden method). -/
abbrev DeclPtr := Nat

/-- A `FileEntryRef`. -/
abbrev FileEntryRef := Nat

/-- Modelled from the spec: the instantiation-or-specialization status of a
template-related declaration ("none / implicit instantiation / explicit
instantiation / explicit specialization"); clang's
`TemplateSpecializationKind` is declared outside the embedded sources. -/
inductive TemplateSpecializationKind where
  | Undeclared
  | ImplicitInstantiation
  | ExplicitInstantiation
  | ExplicitSpecialization
  deriving DecidableEq, Repr

/-- Modelled from the spec: `isExplicitInstantiationOrSpecialization()`,
true for an explicit instantiation and for an explicit specialization. -/
def TemplateSpecializationKind.isExplicitInstantiationOrSpecialization :
    TemplateSpecializationKind → Bool
  | .ExplicitInstantiation => true
  | .ExplicitSpecialization => true
  | _ => false

/-- Modelled from the spec: `isExplicitSpecialization()`. -/
def TemplateSpecializationKind.isExplicitSpecialization :
    TemplateSpecializationKind → Bool
  | .ExplicitSpecialization => true
  | _ => false

/-- The data `visitDecl` reads from a `CXXMethodDecl`: `isVirtual()` and
`overridden_methods()`. -/
structure CXXMethodData where
  isVirtual : Bool
  overridden_methods : List DeclPtr
  deriving DecidableEq, Repr

/-- The dynamic class of a declaration, as far as the `isa`/`dyn_cast`
tests of `visitDecl` distinguish it, with the class-specific data read by
`visitDecl`.

* `Decl`: a declaration that is not a `NamedDecl`;
* `NamedDecl`: a named declaration of none of the classes below;
* `FunctionDecl Info CXXMD`: a function; `Info` is
  `getTemplateSpecializationInfo()` (`none` is the null pointer, otherwise
  the specialization kind it records) and `CXXMD` is present exactly when
  the function is a `CXXMethodDecl`;
* `CXXRecordDecl TemplSpec isEffectivelyFinal typeParents`: a class, with
  `isEffectivelyFinal()` and `typeParents(CXXRD)`; `TemplSpec` is present
  exactly when the class is a `ClassTemplateSpecializationDecl` and is then
  its specialization kind. -/
inductive DeclKind where
  | Decl
  | NamedDecl
  | NamespaceDecl
  | NamespaceAliasDecl
  | TemplateDecl
  | FunctionDecl (Info : Option TemplateSpecializationKind) (CXXMD : Option CXXMethodData)
  | CXXRecordDecl (TemplSpec : Option TemplateSpecializationKind) (isEffectivelyFinal : Bool)
      (typeParents : List DeclPtr)
  deriving DecidableEq, Repr

/-- The data of one declaration node apart from its links into the tree:
`getLocation()`, `isImplicit()`, `getSymbolID(D)` (absent for a null id) and
the dynamic class. -/
structure DeclInfo where
  loc : SourceLocation
  isImplicit : Bool
  symbolID : Option SymbolID
  kind : DeclKind
  deriving DecidableEq, Repr

/-- A declaration node: its own data, `getTemplatedDecl()` (read only for a
`TemplateDecl`; `none` is the null pointer) and, when the declaration is a
`DeclContext`, its `decls()` in source order. -/
inductive Decl where
  | mk (info : DeclInfo) (templated : Option Decl) (decls : Option (List Decl))

/-- The own data of a node. -/
def Decl.info : Decl → DeclInfo
  | .mk i _ _ => i

/-- The node's `getTemplatedDecl()`. -/
def Decl.templated : Decl → Option Decl
  | .mk _ t _ => t

/-- The node's `decls()`, when it is a `DeclContext`. -/
def Decl.decls : Decl → Option (List Decl)
  | .mk _ _ ds => ds

/-- `isa<NamedDecl>(D)`. -/
def DeclKind.isNamedDecl : DeclKind → Bool
  | .Decl => false
  | _ => true

/-- `isa<NamespaceDecl, NamespaceAliasDecl>(D)`. -/
def DeclKind.isNamespaceOrAlias : DeclKind → Bool
  | .NamespaceDecl => true
  | .NamespaceAliasDecl => true
  | _ => false

/-! ## Collaborators -/

/-- The queries on source locations that `CodeLens.cpp` makes through the
`SourceManager`, the `FileManager` and the `Lexer`. -/
structure SourceManager where
  /-- `isInsideMainFile(Loc, SM)`. -/
  isInsideMainFile : SourceLocation → Bool
  /-- `Loc.isMacroID()`. -/
  isMacroID : SourceLocation → Bool
  /-- `sourceLocToPosition(SM, Loc)`. -/
  sourceLocToPosition : SourceLocation → Position
  /-- `Lexer::getLocForEndOfToken(Loc, 0, SM, LangOpts)`. -/
  getLocForEndOfToken : SourceLocation → SourceLocation
  /-- `SM.getFileEntryRefForID(SM.getFileID(Loc))`. -/
  getFileEntryRefForLoc : SourceLocation → Option FileEntryRef
  /-- `SM.getFileEntryRefForID(SM.getMainFileID())`. -/
  getMainFileEntryRef : Option FileEntryRef
  /-- `getCanonicalPath(FE, FM)`. -/
  getCanonicalPath : FileEntryRef → Option String

/-- `SymbolLocation` of the index. -/
structure SymbolLocation where
  FileURI : String
  Start : Position
  End : Position
  deriving DecidableEq, Repr

/-- A `Symbol` of the index, with the one field `lookupIndex` reads. -/
structure Symbol where
  CanonicalDeclaration : SymbolLocation
  deriving DecidableEq, Repr

/-- `RelationKind`, with the two predicates `visitDecl` queries. -/
inductive RelationKind where
  | BaseOf
  | OverriddenBy
  deriving DecidableEq, Repr

/-- `RelationsRequest`. -/
structure RelationsRequest where
  Subjects : List SymbolID
  Predicate : RelationKind
  Limit : Option Nat
  deriving DecidableEq, Repr

/-- A `SymbolIndex`: `relations(Req, Callback)` is represented by the
sequence of `(Subject, Object)` pairs on which it invokes the callback. -/
structure SymbolIndex where
  relations : RelationsRequest → List (SymbolID × Symbol)

/-- One `Reference` of `ReferencesResult`. -/
structure Reference where
  Loc : Location
  deriving DecidableEq, Repr

/-- `ReferencesResult` of `XRefs.h`. -/
structure ReferencesResult where
  References : List Reference
  deriving DecidableEq, Repr

/-- The parsed translation unit: `getSourceManager()` and
`getLocalTopLevelDecls()`. -/
structure ParsedAST where
  SM : SourceManager
  LocalTopLevelDecls : List Decl

/-- Functions and constants of clangd used by `CodeLens.cpp` and defined
elsewhere. -/
structure Externals where
  /-- `P->getCanonicalDecl()`. -/
  getCanonicalDecl : DeclPtr → DeclPtr
  /-- `nameLocation(D, SM)`. -/
  nameLocation : DeclPtr → SourceLocation
  /-- `URIForFile::canonicalize(AbsPath, TUPath)`. -/
  canonicalize : String → String → String
  /-- `indexToLSPLocation(Loc, TUPath)`. -/
  indexToLSPLocation : SymbolLocation → String → Option Location
  /-- `findReferences(AST, Pos, Limit, Index)`. -/
  findReferences : ParsedAST → Position → Nat → Option SymbolIndex → ReferencesResult
  /-- `CodeAction::SHOW_REFERENCES`. -/
  SHOW_REFERENCES : String

/-! ## `CodeLens.cpp` -/

/-- `declToLocation(D)`: the canonical location of a declaration's name, or
nothing when a file cannot be resolved. -/
def declToLocation (E : Externals) (SM : SourceManager) (D : DeclPtr) : Option Location :=
  let NameLoc := E.nameLocation D
  match SM.getFileEntryRefForLoc NameLoc, SM.getMainFileEntryRef with
  | some FE, some TU =>
    match SM.getCanonicalPath FE, SM.getCanonicalPath TU with
    | some FilePath, some TUPath =>
      let NameBegin := SM.sourceLocToPosition NameLoc
      let NameEnd := SM.sourceLocToPosition (SM.getLocForEndOfToken NameLoc)
      some { uri := E.canonicalize FilePath TUPath, range := ⟨NameBegin, NameEnd⟩ }
    | _, _ => none
  | _, _ => none

/-- `lookupIndex(Index, Limit, Path, D, R)`: the locations of the objects the
index relates to `D`, those that convert to an LSP location, in callback
order. -/
def lookupIndex (E : Externals) (Index : Option SymbolIndex) (Limit : Nat) (Path : String)
    (D : DeclInfo) (R : RelationKind) : List Location :=
  match Index with
  | none => []
  | some idx =>
    match D.symbolID with
    | none => []
    | some ID =>
      let Req : RelationsRequest := { Subjects := [ID], Predicate := R, Limit := some Limit }
      (idx.relations Req).filterMap
        (fun so => E.indexToLSPLocation so.2.CanonicalDeclaration Path)

/-- The accumulators of the walk: `Visited` and `Results`. -/
structure WalkState where
  Visited : List SourceLocation
  Results : List CodeLens
  deriving DecidableEq, Repr

/-- The first two tests of `visitDecl` (lines 64-67): the declaration is
skipped when it is outside the main file, implicit, not a `NamedDecl` or at a
macro location. -/
def rejectDecl (SM : SourceManager) (D : DeclInfo) : Bool :=
  !SM.isInsideMainFile D.loc || (D.isImplicit || !D.kind.isNamedDecl || SM.isMacroID D.loc)

/-- The template tests of `visitDecl` (lines 80-101): `none` when the
function returns at once (a specialization that is not explicit), otherwise
the value of `VisitChildren`. -/
def classify : DeclKind → Option Bool
  | .FunctionDecl (some Info) _ =>
    if !Info.isExplicitInstantiationOrSpecialization then none else some false
  | .FunctionDecl none _ => some false
  | .CXXRecordDecl (some TemplSpec) _ _ =>
    if !TemplSpec.isExplicitInstantiationOrSpecialization then none
    else some TemplSpec.isExplicitSpecialization
  | _ => some true

/-- The range of the token at a location (lines 103-107). -/
def tokenRange (SM : SourceManager) (Loc : SourceLocation) : Range :=
  ⟨SM.sourceLocToPosition Loc, SM.sourceLocToPosition (SM.getLocForEndOfToken Loc)⟩

/-- `Sub.locations` after lines 117-135. -/
def subLocations (E : Externals) (Index : Option SymbolIndex) (Limit : Nat) (Path : String)
    (D : DeclInfo) : List Location :=
  match D.kind with
  | .CXXRecordDecl _ isEffectivelyFinal _ =>
    if !isEffectivelyFinal then lookupIndex E Index Limit Path D .BaseOf else []
  | .FunctionDecl _ (some CXXMD) =>
    if CXXMD.isVirtual then lookupIndex E Index Limit Path D .OverriddenBy else []
  | _ => []

/-- `Super.locations` after lines 117-135. -/
def superLocations (E : Externals) (SM : SourceManager) (D : DeclInfo) : List Location :=
  match D.kind with
  | .CXXRecordDecl _ _ typeParents =>
    typeParents.filterMap (fun P => declToLocation E SM (E.getCanonicalDecl P))
  | .FunctionDecl _ (some CXXMD) =>
    CXXMD.overridden_methods.filterMap (fun P => declToLocation E SM (E.getCanonicalDecl P))
  | _ => []

/-- The record of lines 111-113: a marker with placeholder data. -/
def markerLens (Path : String) (R : Range) : CodeLens :=
  { range := R, command := none, data := some { uri := Path } }

/-- The record of lines 138-144 and 148-154: a ready hierarchy command with
title `<Count> <suffix>`. -/
def hierarchyLens (E : Externals) (Path : String) (R : Range) (suffix : String)
    (locations : List Location) : CodeLens :=
  { range := R
    command := some
      { command := E.SHOW_REFERENCES
        title := toString locations.length ++ suffix
        argument := some { uri := Path, position := R.start, locations := locations } }
    data := none }

/-- Lines 74-155 of `visitDecl`, run on the working declaration (after the
template substitution): the de-duplication test, the insertion into
`Visited`, the template tests and the records of the declaration itself.
The Boolean tells whether lines 161-165 (the children) are reached. -/
def visitSelf (E : Externals) (AST : ParsedAST) (Index : Option SymbolIndex) (Limit : Nat)
    (Path : String) (D : DeclInfo) (st : WalkState) : WalkState × Bool :=
  if D.loc ∈ st.Visited then (st, false)
  else
    let Visited := D.loc :: st.Visited
    match classify D.kind with
    | none => ({ st with Visited := Visited }, false)
    | some VisitChildren =>
      let R := tokenRange AST.SM D.loc
      let Results := st.Results
      let Results :=
        if !D.kind.isNamespaceOrAlias then Results ++ [markerLens Path R] else Results
      let Sub := subLocations E Index Limit Path D
      let Super := superLocations E AST.SM D
      let Results :=
        if Super.length ≠ 0 then Results ++ [hierarchyLens E Path R " base" Super] else Results
      let Results :=
        if Sub.length ≠ 0 then Results ++ [hierarchyLens E Path R " derived" Sub] else Results
      ({ Visited := Visited, Results := Results }, VisitChildren)

mutual
/-- `visitDecl(AST, Index, Limit, Path, D, Visited, Results)`. -/
def visitDecl (E : Externals) (AST : ParsedAST) (Index : Option SymbolIndex) (Limit : Nat)
    (Path : String) (st : WalkState) : Decl → WalkState
  | .mk info templated decls =>
    if rejectDecl AST.SM info then st
    else
      match info.kind, templated with
      | .TemplateDecl, some (.mk tinfo _ tdecls) =>
        let r := visitSelf E AST Index Limit Path tinfo st
        if r.2 then
          match tdecls with
          | some Scope => visitDecls E AST Index Limit Path r.1 Scope
          | none => r.1
        else r.1
      | _, _ =>
        let r := visitSelf E AST Index Limit Path info st
        if r.2 then
          match decls with
          | some Scope => visitDecls E AST Index Limit Path r.1 Scope
          | none => r.1
        else r.1
/-- The loop `for (auto *C : Scope->decls()) visitDecl(..., C, ...)`. -/
def visitDecls (E : Externals) (AST : ParsedAST) (Index : Option SymbolIndex) (Limit : Nat)
    (Path : String) (st : WalkState) : List Decl → WalkState
  | [] => st
  | C :: rest => visitDecls E AST Index Limit Path (visitDecl E AST Index Limit Path st C) rest
end

/-- `getDocumentCodeLens(AST, Index, Limit, Path)`. -/
def getDocumentCodeLens (E : Externals) (AST : ParsedAST) (Index : Option SymbolIndex)
    (Limit : Nat) (Path : String) : Except String (List CodeLens) :=
  let Limit := if Limit ≠ 0 then Limit else 4294967295
  .ok (visitDecls E AST Index Limit Path { Visited := [], Results := [] }
    AST.LocalTopLevelDecls).Results

/-- `resolveCodeLens(AST, Params, Limit, Index, Path)`. -/
def resolveCodeLens (E : Externals) (AST : ParsedAST) (Params : CodeLens) (Limit : Nat)
    (Index : Option SymbolIndex) (Path : String) : Except String CodeLens :=
  let Pos := Params.range.start
  match Params.data with
  | some _ =>
    let Refs := (E.findReferences AST Pos Limit Index).References
    .ok
      { range := Params.range
        command := some
          { command := E.SHOW_REFERENCES
            title := toString Refs.length ++ " references"
            argument := some
              { uri := Path, position := Pos, locations := Refs.map (fun Ref => Ref.Loc) } }
        data := none }
  | none => .error "failed to resolve codelens"

/-! ## Derived notions used to state the properties -/

/-- Lines 161-165: the children loop, run when the working declaration is a
`DeclContext`. -/
def visitScope (E : Externals) (AST : ParsedAST) (Index : Option SymbolIndex) (Limit : Nat)
    (Path : String) (st : WalkState) : Option (List Decl) → WalkState
  | some Scope => visitDecls E AST Index Limit Path st Scope
  | none => st

/-- The working declaration after lines 69-72: the templated declaration of
a `TemplateDecl` that has one, otherwise the declaration itself. -/
def Decl.working (D : Decl) : Decl :=
  match D.info.kind, D.templated with
  | .TemplateDecl, some TD => TD
  | _, _ => D

/-- The marker of a working declaration: present unless the declaration is a
namespace or a namespace alias. -/
def markerBlock (AST : ParsedAST) (Path : String) (D : DeclInfo) : List CodeLens :=
  if !D.kind.isNamespaceOrAlias then [markerLens Path (tokenRange AST.SM D.loc)] else []

/-- The "base" command of a working declaration: present when some
supertype or overridden method has a location. -/
def baseBlock (E : Externals) (AST : ParsedAST) (Path : String) (D : DeclInfo) : List CodeLens :=
  if (superLocations E AST.SM D).length ≠ 0 then
    [hierarchyLens E Path (tokenRange AST.SM D.loc) " base" (superLocations E AST.SM D)]
  else []

/-- The "derived" command of a working declaration: present when the index
lookup yields a location. -/
def derivedBlock (E : Externals) (AST : ParsedAST) (Index : Option SymbolIndex) (Limit : Nat)
    (Path : String) (D : DeclInfo) : List CodeLens :=
  if (subLocations E Index Limit Path D).length ≠ 0 then
    [hierarchyLens E Path (tokenRange AST.SM D.loc) " derived"
      (subLocations E Index Limit Path D)]
  else []

/-- The block of records of one declaration: the marker, then the "base"
command, then the "derived" command. -/
def declBlock (E : Externals) (AST : ParsedAST) (Index : Option SymbolIndex) (Limit : Nat)
    (Path : String) (D : DeclInfo) : List CodeLens :=
  markerBlock AST Path D ++ baseBlock E AST Path D ++ derivedBlock E AST Index Limit Path D

/-- The records `visitSelf` appends, in all three cases. -/
def selfRecords (E : Externals) (AST : ParsedAST) (Index : Option SymbolIndex) (Limit : Nat)
    (Path : String) (D : DeclInfo) (st : WalkState) : List CodeLens :=
  if D.loc ∈ st.Visited then []
  else match classify D.kind with
    | none => []
    | some _ => declBlock E AST Index Limit Path D

/-- The pre-order walk of the specification, for one accepted working
declaration: nothing when its key is already visited; otherwise the key is
inserted and, unless the declaration is a specialization that is not
explicit, its block is emitted, followed by the records of its children when
they are visited. `children` walks the children from a given visited set. -/
def preorderNode (E : Externals) (AST : ParsedAST) (Index : Option SymbolIndex) (Limit : Nat)
    (Path : String) (D : DeclInfo) (Visited : List SourceLocation)
    (children : List SourceLocation → List SourceLocation × List CodeLens) :
    List SourceLocation × List CodeLens :=
  if D.loc ∈ Visited then (Visited, [])
  else
    match classify D.kind with
    | none => (D.loc :: Visited, [])
    | some visitChildren =>
      if visitChildren then
        ((children (D.loc :: Visited)).1,
          declBlock E AST Index Limit Path D ++ (children (D.loc :: Visited)).2)
      else (D.loc :: Visited, declBlock E AST Index Limit Path D)

mutual
/-- The walk as the specification words it: a pure pre-order traversal that
returns the visited set and the concatenation of the blocks of the
declarations it accepts, each block before the records of the children. -/
def preorderDecl (E : Externals) (AST : ParsedAST) (Index : Option SymbolIndex) (Limit : Nat)
    (Path : String) (Visited : List SourceLocation) :
    Decl → List SourceLocation × List CodeLens
  | .mk info templated decls =>
    if rejectDecl AST.SM info then (Visited, [])
    else
      match info.kind, templated with
      | .TemplateDecl, some (.mk tinfo _ tdecls) =>
        preorderNode E AST Index Limit Path tinfo Visited (fun V =>
          match tdecls with
          | some Scope => preorderDecls E AST Index Limit Path V Scope
          | none => (V, []))
      | _, _ =>
        preorderNode E AST Index Limit Path info Visited (fun V =>
          match decls with
          | some Scope => preorderDecls E AST Index Limit Path V Scope
          | none => (V, []))
/-- The records of a list of declarations: the records of the first, then
those of the rest, walked from the visited set the first leaves. -/
def preorderDecls (E : Externals) (AST : ParsedAST) (Index : Option SymbolIndex) (Limit : Nat)
    (Path : String) (Visited : List SourceLocation) :
    List Decl → List SourceLocation × List CodeLens
  | [] => (Visited, [])
  | C :: rest =>
    ((preorderDecls E AST Index Limit Path
        (preorderDecl E AST Index Limit Path Visited C).1 rest).1,
      (preorderDecl E AST Index Limit Path Visited C).2 ++
        (preorderDecls E AST Index Limit Path
          (preorderDecl E AST Index Limit Path Visited C).1 rest).2)
end

/-- The children walk of `preorderDecl` for an optional scope. -/
def preorderScope (E : Externals) (AST : ParsedAST) (Index : Option SymbolIndex) (Limit : Nat)
    (Path : String) (Visited : List SourceLocation) :
    Option (List Decl) → List SourceLocation × List CodeLens
  | some Scope => preorderDecls E AST Index Limit Path Visited Scope
  | none => (Visited, [])

/-- The limit `getDocumentCodeLens` passes to the walk (line 173). -/
def effectiveLimit (Limit : Nat) : Nat :=
  if Limit ≠ 0 then Limit else 4294967295

/-- The predicate with which lines 118-130 query the index for a
declaration: `BaseOf` for a class that is not effectively final,
`OverriddenBy` for a virtual method, and no query otherwise. -/
def derivedPredicate : DeclKind → Option RelationKind
  | .CXXRecordDecl _ isEffectivelyFinal _ => if !isEffectivelyFinal then some .BaseOf else none
  | .FunctionDecl _ (some CXXMD) => if CXXMD.isVirtual then some .OverriddenBy else none
  | _ => none

/-- Lines 74-165 of `visitDecl`, run on the working declaration `W`: the
step `visitSelf` on its data, then the children loop on its scope when
`VisitChildren` holds. -/
def visitWorking (E : Externals) (AST : ParsedAST) (Index : Option SymbolIndex) (Limit : Nat)
    (Path : String) (st : WalkState) (W : Decl) : WalkState :=
  if (visitSelf E AST Index Limit Path W.info st).2 then
    visitScope E AST Index Limit Path (visitSelf E AST Index Limit Path W.info st).1 W.decls
  else (visitSelf E AST Index Limit Path W.info st).1

/-- `isa<FunctionDecl>(D)`: a function or a method. -/
def DeclKind.isFunctionDecl : DeclKind → Bool
  | .FunctionDecl _ _ => true
  | _ => false

/-- A declaration is template-related when it is a template wrapper or
carries a specialization or instantiation status. -/
def DeclKind.isTemplateRelated : DeclKind → Bool
  | .TemplateDecl => true
  | .FunctionDecl (some _) _ => true
  | .CXXRecordDecl (some _) _ _ => true
  | _ => false

/-- The declarations lines 122 and 131 iterate over: `typeParents(CXXRD)` of
a class, `overridden_methods()` of a method, nothing otherwise. -/
def DeclKind.superDecls : DeclKind → List DeclPtr
  | .CXXRecordDecl _ _ typeParents => typeParents
  | .FunctionDecl _ (some CXXMD) => CXXMD.overridden_methods
  | _ => []

/-- The marker records of an output: those carrying placeholder data. -/
def markers (out : List CodeLens) : List CodeLens :=
  out.filter (fun r => r.data.isSome)

/-! ## The symbol index collaborator -/

/-- Modelled from the spec: one relation held by the symbol index
collaborator, whose storage is absent from the embedded sources: `Object` is
related to `Subject` by `Predicate`. -/
structure Relation where
  Subject : SymbolID
  Predicate : RelationKind
  Object : Symbol
  deriving DecidableEq, Repr

/-- Modelled from the spec: the entities the index holds for a query, before
any cap: "zero or more (subject, object) pairs" related to a subject of the
request by its predicate, in stored order. -/
def relatedEntities (entries : List Relation) (Subjects : List SymbolID)
    (Predicate : RelationKind) : List (SymbolID × Symbol) :=
  (entries.filter (fun e => decide (e.Subject ∈ Subjects) && decide (e.Predicate = Predicate))).map
    (fun e => (e.Subject, e.Object))

/-- Modelled from the spec: the symbol index collaborator, whose relation
query (absent from the embedded sources) is "capped at a caller-supplied
limit" and stops "once the limit is reached": the callback is invoked on the
first `Limit` related entities. -/
def cappedIndex (entries : List Relation) : SymbolIndex :=
  { relations := fun Req =>
      match Req.Limit with
      | some Limit => (relatedEntities entries Req.Subjects Req.Predicate).take Limit
      | none => relatedEntities entries Req.Subjects Req.Predicate }

/-- Modelled from the spec: the contract of the symbol index collaborator
that the object of every relation "must resolve to a canonical declaration
location": the canonical declaration of every object the index holds
converts to an LSP location. -/
def objectsResolve (E : Externals) (Path : String) (entries : List Relation) : Bool :=
  entries.all (fun e => (E.indexToLSPLocation e.Object.CanonicalDeclaration Path).isSome)

/-! ## A sample translation unit

The file `struct Base {}; struct Derived : Base {}; namespace N { void f();
struct Inner {}; } template <class T> struct Vec { T x; }; template struct
Vec<int>;` on one line, with an index that knows `Derived` as the one
subclass of `Base`. -/

namespace Sample

/-- A source manager for a single-line main file: locations below 1000 are
in the main file, later locations belong to no file, none is a macro
location, every token is one character wide, and the main file has a
canonical path. -/
def SM : SourceManager :=
  { isInsideMainFile := fun Loc => decide (Loc < 1000)
    isMacroID := fun _ => false
    sourceLocToPosition := fun Loc => ⟨0, Loc⟩
    getLocForEndOfToken := fun Loc => Loc + 1
    getFileEntryRefForLoc := fun Loc => if Loc < 1000 then some 0 else none
    getMainFileEntryRef := some 0
    getCanonicalPath := fun _ => some "/main.cpp" }

/-- Declarations are their own canonical declaration and are named where
their pointer says; index locations convert unless their URI is empty. -/
def E : Externals :=
  { getCanonicalDecl := fun P => P
    nameLocation := fun P => P
    canonicalize := fun AbsPath _ => AbsPath
    indexToLSPLocation := fun Loc _ =>
      if Loc.FileURI = "" then none else some ⟨Loc.FileURI, ⟨Loc.Start, Loc.End⟩⟩
    findReferences := fun _ Pos Limit _ =>
      ⟨((List.range 3).take Limit).map (fun i => ⟨⟨"/main.cpp", ⟨Pos, ⟨Pos.line, i⟩⟩⟩⟩)⟩
    SHOW_REFERENCES := "clangd.action.showReferences" }

/-- The index symbol of `Derived`. -/
def DerivedSymbol : Symbol := ⟨⟨"/main.cpp", ⟨0, 24⟩, ⟨0, 25⟩⟩⟩

/-- An index in which `Derived` is the one subclass of `Base` (symbol 1). -/
def Index : SymbolIndex :=
  { relations := fun Req =>
      if Req.Subjects = [1] ∧ Req.Predicate = .BaseOf then [(1, DerivedSymbol)] else [] }

/-- The declaration `struct Base {};` at location 7. -/
def Base : Decl :=
  .mk ⟨7, false, some 1, .CXXRecordDecl none false []⟩ none (some [])

/-- The declaration `struct Derived : Base {};` at location 24. -/
def Derived : Decl :=
  .mk ⟨24, false, some 2, .CXXRecordDecl none false [7]⟩ none (some [])

/-- The declaration `void f();` at location 54. -/
def f : Decl :=
  .mk ⟨54, false, some 3, .FunctionDecl none none⟩ none (some [])

/-- The declaration `struct Inner {};` at location 66. -/
def Inner : Decl :=
  .mk ⟨66, false, some 4, .CXXRecordDecl none false []⟩ none (some [])

/-- The declaration `namespace N { void f(); struct Inner {}; }` at
location 45. -/
def N : Decl :=
  .mk ⟨45, false, none, .NamespaceDecl⟩ none (some [f, Inner])

/-- The field `T x;` of `Vec` at location 95. -/
def x : Decl :=
  .mk ⟨95, false, some 6, .NamedDecl⟩ none none

/-- The pattern of `template <class T> struct Vec { T x; };` at location
90. -/
def VecPattern : Decl :=
  .mk ⟨90, false, some 5, .CXXRecordDecl none false []⟩ none (some [x])

/-- The template declaration `Vec`, wrapping `VecPattern`. -/
def Vec : Decl :=
  .mk ⟨90, false, some 5, .TemplateDecl⟩ (some VecPattern) none

/-- The explicit instantiation `template struct Vec<int>;`, which shares the
location of the pattern and holds the instantiated field. -/
def VecInt : Decl :=
  .mk ⟨90, false, some 7, .CXXRecordDecl (some .ExplicitInstantiation) false []⟩ none
    (some [x])

/-- The sample translation unit. -/
def AST : ParsedAST :=
  { SM := SM, LocalTopLevelDecls := [Base, Derived, N, Vec, VecInt] }

/-- A variable declared at location 45, the location of namespace `N`. -/
def Shadow : Decl :=
  .mk ⟨45, false, some 8, .NamedDecl⟩ none none

/-- A unit in which a declaration precedes namespace `N` at the same
location. -/
def ShadowAST : ParsedAST :=
  { SM := SM, LocalTopLevelDecls := [Shadow, N] }

/-- The declaration `struct Base final {};`: `Base` made effectively
final. -/
def FinalBase : Decl :=
  .mk ⟨7, false, some 1, .CXXRecordDecl none true []⟩ none (some [])

/-- A unit holding only `FinalBase`. -/
def FinalAST : ParsedAST :=
  { SM := SM, LocalTopLevelDecls := [FinalBase] }

/-- A declaration at location 7, the location of `Base`. -/
def BaseTwin : Decl :=
  .mk ⟨7, false, some 17, .NamedDecl⟩ none none

/-- A unit in which a declaration precedes `Base` at the same location. -/
def TwinAST : ParsedAST :=
  { SM := SM, LocalTopLevelDecls := [BaseTwin, Base] }

/-- An implicit instantiation of a class template with the symbol id of
`Base`, at location 7. -/
def BaseImplicit : Decl :=
  .mk ⟨7, false, some 1, .CXXRecordDecl (some .ImplicitInstantiation) false []⟩ none (some [])

/-- A unit holding only `BaseImplicit`. -/
def ImplicitAST : ParsedAST :=
  { SM := SM, LocalTopLevelDecls := [BaseImplicit] }

/-- The declaration `struct Orphan : Ghost {};` at location 30, whose
supertype `Ghost` is named at location 2000, which belongs to no file. -/
def Orphan : Decl :=
  .mk ⟨30, false, some 9, .CXXRecordDecl none false [2000]⟩ none (some [])

/-- A unit holding only `Orphan`. -/
def OrphanAST : ParsedAST :=
  { SM := SM, LocalTopLevelDecls := [Orphan] }

/-- Ten subclasses of `Base` (symbol 1) held by the index, declared on the
lines 0 to 9 of `/derived.cpp`. -/
def tenSubclasses : List Relation :=
  (List.range 10).map (fun i => ⟨1, .BaseOf, ⟨⟨"/derived.cpp", ⟨i, 7⟩, ⟨i, 8⟩⟩⟩⟩)

/-- A unit holding only `Base`. -/
def BaseAST : ParsedAST :=
  { SM := SM, LocalTopLevelDecls := [Base] }

/-- The parameter `int a` of `g` at location 115. -/
def a : Decl :=
  .mk ⟨115, false, some 10, .NamedDecl⟩ none none

/-- The ordinary function `void g(int a) {}` at location 110, whose scope
holds its parameter. -/
def g : Decl :=
  .mk ⟨110, false, some 11, .FunctionDecl none none⟩ none (some [a])

/-- A unit holding only `g`. -/
def GAST : ParsedAST :=
  { SM := SM, LocalTopLevelDecls := [g] }

/-- A unit in which namespace `N` comes first and a variable follows at the
same location. -/
def NFirstAST : ParsedAST :=
  { SM := SM, LocalTopLevelDecls := [N, Shadow] }

/-- An implicit instantiation of a function template at location 120, with
its parameter. -/
def gImplicit : Decl :=
  .mk ⟨120, false, some 12, .FunctionDecl (some .ImplicitInstantiation) none⟩ none (some [a])

/-- The explicit specialization `template <> void g<int>(int a) {}` at
location 130, with its parameter. -/
def gExplicit : Decl :=
  .mk ⟨130, false, some 13, .FunctionDecl (some .ExplicitSpecialization) none⟩ none (some [a])

/-- The explicit specialization `template <> struct Vec<bool> { bool x; };`
at location 140, with its field. -/
def VecBool : Decl :=
  .mk ⟨140, false, some 14, .CXXRecordDecl (some .ExplicitSpecialization) false []⟩ none
    (some [x])

/-- A declaration at location 1500, outside the main file, with a child. -/
def Included : Decl :=
  .mk ⟨1500, false, some 15, .CXXRecordDecl none false []⟩ none (some [x])

/-- The non-virtual method `void m();` at location 150, overriding
nothing. -/
def m : Decl :=
  .mk ⟨150, false, some 16, .FunctionDecl none (some ⟨false, []⟩)⟩ none (some [])

end Sample

end clangd

namespace clangd

/-! ## Unfolding lemmas for the walk -/

section Walk

variable (E : Externals) (AST : ParsedAST) (Index : Option SymbolIndex) (Limit : Nat)
  (Path : String)

/-- Induction on declaration trees: a property holds of every declaration if
it holds of a node whenever it holds of its templated declaration and of all
its children. -/
theorem Decl.induction {P : Decl → Prop}
    (h : ∀ info templated decls, (∀ t, templated = some t → P t) →
      (∀ ds, decls = some ds → ∀ d ∈ ds, P d) → P (.mk info templated decls))
    (D : Decl) : P D :=
  Decl.rec (motive_1 := P) (motive_2 := fun o => ∀ t, o = some t → P t)
    (motive_3 := fun o => ∀ ds, o = some ds → ∀ d ∈ ds, P d)
    (motive_4 := fun ds => ∀ d ∈ ds, P d)
    (fun info t ds ht hds => h info t ds ht hds)
    (fun t ht => by cases ht)
    (fun v hv t ht => by cases ht; exact hv)
    (fun ds hds => by cases hds)
    (fun v hv ds hds => by cases hds; exact hv)
    (fun d hd => by cases hd)
    (fun hd tl h1 h2 d hmem => by
      rcases List.mem_cons.1 hmem with e | m
      · exact e ▸ h1
      · exact h2 d m)
    D

theorem visitDecls_nil (st : WalkState) :
    visitDecls E AST Index Limit Path st [] = st := by
  simp [visitDecls]

theorem visitDecls_cons (st : WalkState) (C : Decl) (rest : List Decl) :
    visitDecls E AST Index Limit Path st (C :: rest) =
      visitDecls E AST Index Limit Path (visitDecl E AST Index Limit Path st C) rest := by
  simp [visitDecls]

/-- The body of `visitDecl` in terms of the working declaration. -/
theorem visitDecl_eq (st : WalkState) (D : Decl) :
    visitDecl E AST Index Limit Path st D =
      if rejectDecl AST.SM D.info then st
      else if (visitSelf E AST Index Limit Path D.working.info st).2 then
        visitScope E AST Index Limit Path
          (visitSelf E AST Index Limit Path D.working.info st).1 D.working.decls
      else (visitSelf E AST Index Limit Path D.working.info st).1 := by
  obtain ⟨info, templated, decls⟩ := D
  by_cases hk : info.kind = .TemplateDecl
  · cases templated with
    | none =>
      rw [visitDecl.eq_2 E AST Index Limit Path st info decls none (by intro _ _ _ _ h; cases h)]
      simp only [Decl.info, Decl.working, Decl.templated, hk, Decl.decls]
      cases decls <;> rfl
    | some t =>
      obtain ⟨tinfo, tt, tdecls⟩ := t
      rw [visitDecl.eq_1 E AST Index Limit Path st info decls tinfo tt tdecls hk]
      simp only [Decl.info, Decl.working, Decl.templated, hk, Decl.decls]
      cases tdecls <;> rfl
  · rw [visitDecl.eq_2 E AST Index Limit Path st info decls templated
      (by intro _ _ _ h _; exact hk h)]
    have hw : (Decl.mk info templated decls).working = Decl.mk info templated decls := by
      simp only [Decl.working, Decl.info, Decl.templated]
      split
      · simp_all
      · rfl
    rw [hw]
    simp only [Decl.info, Decl.decls]
    cases decls <;> rfl

/-- A declaration whose key is already in `Visited` changes nothing. -/
theorem visitSelf_visited (st : WalkState) (D : DeclInfo) (h : D.loc ∈ st.Visited) :
    visitSelf E AST Index Limit Path D st = (st, false) := by
  simp [visitSelf, h]

/-- A specialization that is not explicit only records its key. -/
theorem visitSelf_skip (st : WalkState) (D : DeclInfo) (h : D.loc ∉ st.Visited)
    (hc : classify D.kind = none) :
    visitSelf E AST Index Limit Path D st =
      ({ Visited := D.loc :: st.Visited, Results := st.Results }, false) := by
  simp [visitSelf, h, hc]

/-- An accepted declaration records its key and appends its block. -/
theorem visitSelf_emit (st : WalkState) (D : DeclInfo) (vc : Bool) (h : D.loc ∉ st.Visited)
    (hc : classify D.kind = some vc) :
    visitSelf E AST Index Limit Path D st =
      ({ Visited := D.loc :: st.Visited
         Results := st.Results ++ declBlock E AST Index Limit Path D }, vc) := by
  simp only [visitSelf, h, hc, if_false, declBlock, markerBlock, baseBlock, derivedBlock]
  by_cases h1 : D.kind.isNamespaceOrAlias = true <;>
    by_cases h2 : (superLocations E AST.SM D).length = 0 <;>
    by_cases h3 : (subLocations E Index Limit Path D).length = 0 <;>
    simp [h1, h2, h3]

/-- The three cases of `visitSelf` at once: the results grow by
`selfRecords`, the visited set by at most the declaration's key. -/
theorem visitSelf_spec (st : WalkState) (D : DeclInfo) :
    (visitSelf E AST Index Limit Path D st).1 =
      { Visited := if D.loc ∈ st.Visited then st.Visited else D.loc :: st.Visited
        Results := st.Results ++ selfRecords E AST Index Limit Path D st } := by
  by_cases h : D.loc ∈ st.Visited
  · simp [visitSelf_visited E AST Index Limit Path st D h, selfRecords, h]
  · cases hc : classify D.kind with
    | none => simp [visitSelf_skip E AST Index Limit Path st D h hc, selfRecords, h, hc]
    | some vc => simp [visitSelf_emit E AST Index Limit Path st D vc h hc, selfRecords, h, hc]

/-- Induction over the walk: a reflexive and transitive relation between
walk states that every `visitSelf` step respects relates the state before a
visit to the state after it. -/
theorem walk_rel (Inv : WalkState → WalkState → Prop) (hrefl : ∀ st, Inv st st)
    (htrans : ∀ a b c, Inv a b → Inv b c → Inv a c)
    (hself : ∀ info st, Inv st (visitSelf E AST Index Limit Path info st).1) :
    ∀ D : Decl, (∀ st, Inv st (visitDecl E AST Index Limit Path st D)) ∧
      (∀ st, Inv st (visitScope E AST Index Limit Path st D.decls)) := by
  intro D
  induction D using Decl.induction with
  | h info templated decls iht ihd =>
    have hscope : ∀ st, Inv st (visitScope E AST Index Limit Path st decls) := by
      cases decls with
      | none => intro st; exact hrefl st
      | some ds =>
        have hall := ihd ds rfl
        simp only [visitScope]
        clear ihd
        induction ds with
        | nil => intro st; rw [visitDecls_nil]; exact hrefl st
        | cons d rest ih =>
          intro st
          rw [visitDecls_cons]
          exact htrans _ _ _ ((hall d (List.mem_cons_self _ _)).1 st)
            (ih (fun x hx => hall x (List.mem_cons_of_mem _ hx)) _)
    refine ⟨?_, hscope⟩
    intro st
    rw [visitDecl_eq]
    by_cases hr : rejectDecl AST.SM (Decl.mk info templated decls).info = true
    · rw [if_pos hr]; exact hrefl st
    · rw [if_neg hr]
      have hstep := hself (Decl.mk info templated decls).working.info st
      have hkids : ∀ st, Inv st (visitScope E AST Index Limit Path st
          (Decl.mk info templated decls).working.decls) := by
        by_cases hk : info.kind = .TemplateDecl
        · cases templated with
          | none =>
            have : (Decl.mk info none decls).working = Decl.mk info none decls := by
              simp [Decl.working, Decl.templated]
            rw [this]; exact hscope
          | some t =>
            have : (Decl.mk info (some t) decls).working = t := by
              simp [Decl.working, Decl.templated, Decl.info, hk]
            rw [this]; exact (iht t rfl).2
        · have : (Decl.mk info templated decls).working = Decl.mk info templated decls := by
            simp only [Decl.working, Decl.info, Decl.templated]
            split
            · simp_all
            · rfl
          rw [this]; exact hscope
      split
      · exact htrans _ _ _ hstep (hkids _)
      · exact hstep

/-- The loop over a list of declarations respects every relation that
`walk_rel` applies to. -/
theorem walk_rel_list (Inv : WalkState → WalkState → Prop) (hrefl : ∀ st, Inv st st)
    (htrans : ∀ a b c, Inv a b → Inv b c → Inv a c)
    (hself : ∀ info st, Inv st (visitSelf E AST Index Limit Path info st).1)
    (ds : List Decl) : ∀ st, Inv st (visitDecls E AST Index Limit Path st ds) := by
  induction ds with
  | nil => intro st; rw [visitDecls_nil]; exact hrefl st
  | cons d rest ih =>
    intro st
    rw [visitDecls_cons]
    exact htrans _ _ _ ((walk_rel E AST Index Limit Path Inv hrefl htrans hself d).1 st) (ih _)

/-! ## The accumulating walk refines the pre-order traversal -/

theorem preorderDecls_nil (V : List SourceLocation) :
    preorderDecls E AST Index Limit Path V [] = (V, []) := by
  simp [preorderDecls]

theorem preorderDecls_cons (V : List SourceLocation) (C : Decl) (rest : List Decl) :
    preorderDecls E AST Index Limit Path V (C :: rest) =
      ((preorderDecls E AST Index Limit Path
          (preorderDecl E AST Index Limit Path V C).1 rest).1,
        (preorderDecl E AST Index Limit Path V C).2 ++
          (preorderDecls E AST Index Limit Path
            (preorderDecl E AST Index Limit Path V C).1 rest).2) := by
  simp [preorderDecls]

/-- The body of `preorderDecl` in terms of the working declaration. -/
theorem preorderDecl_eq (V : List SourceLocation) (D : Decl) :
    preorderDecl E AST Index Limit Path V D =
      if rejectDecl AST.SM D.info then (V, [])
      else preorderNode E AST Index Limit Path D.working.info V
        (fun W => preorderScope E AST Index Limit Path W D.working.decls) := by
  obtain ⟨info, templated, decls⟩ := D
  by_cases hk : info.kind = .TemplateDecl
  · cases templated with
    | none =>
      rw [preorderDecl.eq_2 E AST Index Limit Path V info decls none
        (by intro _ _ _ _ h; cases h)]
      simp only [Decl.info, Decl.working, Decl.templated, hk, Decl.decls]
      cases decls <;> rfl
    | some t =>
      obtain ⟨tinfo, tt, tdecls⟩ := t
      rw [preorderDecl.eq_1 E AST Index Limit Path V info decls tinfo tt tdecls hk]
      simp only [Decl.info, Decl.working, Decl.templated, hk, Decl.decls]
      cases tdecls <;> rfl
  · rw [preorderDecl.eq_2 E AST Index Limit Path V info decls templated
      (by intro _ _ _ h _; exact hk h)]
    have hw : (Decl.mk info templated decls).working = Decl.mk info templated decls := by
      simp only [Decl.working, Decl.info, Decl.templated]
      split
      · simp_all
      · rfl
    rw [hw]
    simp only [Decl.info, Decl.decls]
    cases decls <;> rfl

/-- One step of the refinement: `visitSelf` followed by the children loop
agrees with `preorderNode`, given that the children loop agrees with the
children walk. -/
theorem visitSelf_refines (D : DeclInfo) (decls : Option (List Decl))
    (hkids : ∀ st, visitScope E AST Index Limit Path st decls =
      { Visited := (preorderScope E AST Index Limit Path st.Visited decls).1
        Results := st.Results ++ (preorderScope E AST Index Limit Path st.Visited decls).2 })
    (st : WalkState) :
    (if (visitSelf E AST Index Limit Path D st).2 then
        visitScope E AST Index Limit Path (visitSelf E AST Index Limit Path D st).1 decls
      else (visitSelf E AST Index Limit Path D st).1) =
      { Visited := (preorderNode E AST Index Limit Path D st.Visited
          (fun W => preorderScope E AST Index Limit Path W decls)).1
        Results := st.Results ++ (preorderNode E AST Index Limit Path D st.Visited
          (fun W => preorderScope E AST Index Limit Path W decls)).2 } := by
  by_cases h : D.loc ∈ st.Visited
  · simp [visitSelf_visited E AST Index Limit Path st D h, preorderNode, h]
  · cases hc : classify D.kind with
    | none =>
      simp [visitSelf_skip E AST Index Limit Path st D h hc, preorderNode, h, hc]
    | some vc =>
      rw [visitSelf_emit E AST Index Limit Path st D vc h hc]
      cases vc with
      | false => simp [preorderNode, h, hc]
      | true => simp [preorderNode, h, hc, hkids, List.append_assoc]

/-- The accumulating walk of the source appends to `Results` exactly the
records of the pure pre-order traversal, and leaves the same visited set. -/
theorem visit_refines (D : Decl) :
    (∀ st, visitDecl E AST Index Limit Path st D =
      { Visited := (preorderDecl E AST Index Limit Path st.Visited D).1
        Results := st.Results ++ (preorderDecl E AST Index Limit Path st.Visited D).2 }) ∧
    (∀ st, visitScope E AST Index Limit Path st D.decls =
      { Visited := (preorderScope E AST Index Limit Path st.Visited D.decls).1
        Results := st.Results ++ (preorderScope E AST Index Limit Path st.Visited D.decls).2 }) := by
  induction D using Decl.induction with
  | h info templated decls iht ihd =>
    have hscope : ∀ st, visitScope E AST Index Limit Path st decls =
        { Visited := (preorderScope E AST Index Limit Path st.Visited decls).1
          Results := st.Results ++ (preorderScope E AST Index Limit Path st.Visited decls).2 } := by
      cases decls with
      | none => intro st; simp [visitScope, preorderScope]
      | some ds =>
        have hall := ihd ds rfl
        simp only [visitScope, preorderScope]
        clear ihd
        induction ds with
        | nil => intro st; simp [visitDecls_nil, preorderDecls_nil]
        | cons d rest ih =>
          intro st
          rw [visitDecls_cons, preorderDecls_cons, (hall d (List.mem_cons_self _ _)).1 st,
            ih (fun x hx => hall x (List.mem_cons_of_mem _ hx))]
          simp [List.append_assoc]
    refine ⟨?_, hscope⟩
    intro st
    rw [visitDecl_eq, preorderDecl_eq]
    by_cases hr : rejectDecl AST.SM (Decl.mk info templated decls).info = true
    · rw [if_pos hr, if_pos hr]; simp
    · rw [if_neg hr, if_neg hr]
      apply visitSelf_refines
      by_cases hk : info.kind = .TemplateDecl
      · cases templated with
        | none =>
          have : (Decl.mk info none decls).working = Decl.mk info none decls := by
            simp [Decl.working, Decl.templated]
          rw [this]; exact hscope
        | some t =>
          have : (Decl.mk info (some t) decls).working = t := by
            simp [Decl.working, Decl.templated, Decl.info, hk]
          rw [this]; exact (iht t rfl).2
      · have : (Decl.mk info templated decls).working = Decl.mk info templated decls := by
          simp only [Decl.working, Decl.info, Decl.templated]
          split
          · simp_all
          · rfl
        rw [this]; exact hscope

/-- The refinement for a list of declarations. -/
theorem visitDecls_refines (ds : List Decl) : ∀ st : WalkState,
    visitDecls E AST Index Limit Path st ds =
      { Visited := (preorderDecls E AST Index Limit Path st.Visited ds).1
        Results := st.Results ++ (preorderDecls E AST Index Limit Path st.Visited ds).2 } := by
  induction ds with
  | nil => intro st; simp [visitDecls_nil, preorderDecls_nil]
  | cons d rest ih =>
    intro st
    rw [visitDecls_cons, preorderDecls_cons, (visit_refines E AST Index Limit Path d).1 st, ih]
    simp [List.append_assoc]

/-! ## Invariants of the walk -/

theorem markers_append (xs ys : List CodeLens) :
    markers (xs ++ ys) = markers xs ++ markers ys := by
  simp [markers]

/-- The markers among the records of one declaration are its marker block. -/
theorem markers_declBlock (D : DeclInfo) :
    markers (declBlock E AST Index Limit Path D) = markerBlock AST Path D := by
  simp only [declBlock, markers_append]
  have h1 : markers (markerBlock AST Path D) = markerBlock AST Path D := by
    unfold markerBlock
    split <;> simp [markers, markerLens]
  have h2 : markers (baseBlock E AST Path D) = [] := by
    unfold baseBlock
    split <;> simp [markers, hierarchyLens]
  have h3 : markers (derivedBlock E AST Index Limit Path D) = [] := by
    unfold derivedBlock
    split <;> simp [markers, hierarchyLens]
  rw [h1, h2, h3]; simp

/-- The markers a `visitSelf` step appends are anchored at the declaration's
key, and only when that key is new. -/
theorem markers_selfRecords (D : DeclInfo) (st : WalkState) :
    (markers (selfRecords E AST Index Limit Path D st)).map (fun r => r.range) = [] ∨
    (D.loc ∉ st.Visited ∧
      (markers (selfRecords E AST Index Limit Path D st)).map (fun r => r.range) =
        [tokenRange AST.SM D.loc]) := by
  unfold selfRecords
  by_cases h : D.loc ∈ st.Visited
  · left; simp [h, markers]
  · cases hc : classify D.kind with
    | none => left; simp [h, markers]
    | some vc =>
      simp only [h, if_false, markers_declBlock]
      unfold markerBlock
      split
      · right; exact ⟨fun hn => hn, by simp [markerLens]⟩
      · left; rfl

/-- The keys of the markers a walk appends: they are pairwise distinct, new
with respect to the visited set the walk started from, and recorded in the
visited set it ends with, which only grows. -/
theorem visitDecls_marker_keys (ds : List Decl) (st : WalkState) :
    ∃ L : List SourceLocation, L.Nodup ∧
      (∀ k ∈ L, k ∉ st.Visited ∧ k ∈ (visitDecls E AST Index Limit Path st ds).Visited) ∧
      (∀ k ∈ st.Visited, k ∈ (visitDecls E AST Index Limit Path st ds).Visited) ∧
      (markers (visitDecls E AST Index Limit Path st ds).Results).map (fun r => r.range) =
        (markers st.Results).map (fun r => r.range) ++ L.map (tokenRange AST.SM) := by
  refine walk_rel_list E AST Index Limit Path
    (fun a b => ∃ L : List SourceLocation, L.Nodup ∧
      (∀ k ∈ L, k ∉ a.Visited ∧ k ∈ b.Visited) ∧ (∀ k ∈ a.Visited, k ∈ b.Visited) ∧
      (markers b.Results).map (fun r => r.range) =
        (markers a.Results).map (fun r => r.range) ++ L.map (tokenRange AST.SM))
    ?_ ?_ ?_ ds st
  · intro a
    exact ⟨[], List.nodup_nil, by simp, fun k hk => hk, by simp⟩
  · rintro a b c ⟨L1, hn1, hk1, hv1, hm1⟩ ⟨L2, hn2, hk2, hv2, hm2⟩
    refine ⟨L1 ++ L2, ?_, ?_, fun k hk => hv2 k (hv1 k hk), ?_⟩
    · rw [List.nodup_append]
      refine ⟨hn1, hn2, ?_⟩
      intro k h1 h2
      exact (hk2 k h2).1 (hk1 k h1).2
    · intro k hk
      rcases List.mem_append.1 hk with h | h
      · exact ⟨(hk1 k h).1, hv2 k (hk1 k h).2⟩
      · exact ⟨fun hka => (hk2 k h).1 (hv1 k hka), (hk2 k h).2⟩
    · rw [hm2, hm1]; simp
  · intro info a
    rw [visitSelf_spec]
    rcases markers_selfRecords E AST Index Limit Path info a with h | ⟨hnew, h⟩
    · refine ⟨[], List.nodup_nil, by simp, ?_, ?_⟩
      · intro k hk
        show k ∈ (if info.loc ∈ a.Visited then a.Visited else info.loc :: a.Visited)
        split
        · exact hk
        · exact List.mem_cons_of_mem _ hk
      · simp only [markers_append, List.map_append, h]; simp
    · refine ⟨[info.loc], List.nodup_singleton _, ?_, ?_, ?_⟩
      · intro k hk
        rw [List.mem_singleton] at hk
        subst hk
        exact ⟨hnew, by simp [hnew]⟩
      · intro k hk
        show k ∈ (if info.loc ∈ a.Visited then a.Visited else info.loc :: a.Visited)
        split
        · exact hk
        · exact List.mem_cons_of_mem _ hk
      · simp only [markers_append, List.map_append, h]; simp

/-- Every record of a declaration's block is its marker or one of its two
hierarchy commands, the latter with a non-empty location list. -/
theorem declBlock_shape (D : DeclInfo) (r : CodeLens)
    (hr : r ∈ declBlock E AST Index Limit Path D) :
    r = markerLens Path (tokenRange AST.SM D.loc) ∨
    (∃ locs : List Location, locs ≠ [] ∧
      r = hierarchyLens E Path (tokenRange AST.SM D.loc) " base" locs) ∨
    (∃ locs : List Location, locs ≠ [] ∧
      r = hierarchyLens E Path (tokenRange AST.SM D.loc) " derived" locs) := by
  simp only [declBlock, List.mem_append] at hr
  rcases hr with (hr | hr) | hr
  · left
    unfold markerBlock at hr
    split at hr
    · simpa using hr
    · simp at hr
  · right; left
    unfold baseBlock at hr
    split at hr
    · rename_i hne
      refine ⟨_, ?_, by simpa using hr⟩
      intro hnil
      exact hne (by rw [hnil]; rfl)
    · simp at hr
  · right; right
    unfold derivedBlock at hr
    split at hr
    · rename_i hne
      refine ⟨_, ?_, by simpa using hr⟩
      intro hnil
      exact hne (by rw [hnil]; rfl)
    · simp at hr

/-- A property of records that holds of every record of every block holds of
every record the walk appends. -/
theorem visitDecls_records_all (P : CodeLens → Prop)
    (hP : ∀ D : DeclInfo, ∀ r ∈ declBlock E AST Index Limit Path D, P r)
    (ds : List Decl) (st : WalkState) (h : ∀ r ∈ st.Results, P r) :
    ∀ r ∈ (visitDecls E AST Index Limit Path st ds).Results, P r := by
  refine walk_rel_list E AST Index Limit Path
    (fun a b => (∀ r ∈ a.Results, P r) → ∀ r ∈ b.Results, P r) ?_ ?_ ?_ ds st h
  · intro a ha; exact ha
  · intro a b c hab hbc ha; exact hbc (hab ha)
  · intro info a ha r hr
    rw [visitSelf_spec] at hr
    rcases List.mem_append.1 hr with hr | hr
    · exact ha r hr
    · unfold selfRecords at hr
      split at hr
      · simp at hr
      · split at hr
        · simp at hr
        · exact hP info r hr

/-! ## Single declarations -/

/-- A declaration that is not a `TemplateDecl` is its own working
declaration. -/
theorem working_of_not_template (info : DeclInfo) (templated : Option Decl)
    (decls : Option (List Decl)) (hk : info.kind ≠ .TemplateDecl) :
    (Decl.mk info templated decls).working = Decl.mk info templated decls := by
  simp only [Decl.working, Decl.info, Decl.templated]
  split
  · simp_all
  · rfl

/-- The visit of a declaration that is not a `TemplateDecl`, passes the
rejection tests and passes the template tests: nothing happens when its key
is visited; otherwise the key is inserted, the block is appended and the
children are visited when `VisitChildren` holds. -/
theorem visitDecl_accept (st : WalkState) (info : DeclInfo) (templated : Option Decl)
    (decls : Option (List Decl)) (vc : Bool) (hk : info.kind ≠ .TemplateDecl)
    (hreach : rejectDecl AST.SM info = false) (hc : classify info.kind = some vc) :
    visitDecl E AST Index Limit Path st (.mk info templated decls) =
      if info.loc ∈ st.Visited then st
      else if vc then
        visitScope E AST Index Limit Path
          { Visited := info.loc :: st.Visited
            Results := st.Results ++ declBlock E AST Index Limit Path info } decls
      else
        { Visited := info.loc :: st.Visited
          Results := st.Results ++ declBlock E AST Index Limit Path info } := by
  rw [visitDecl_eq, working_of_not_template info templated decls hk]
  simp only [Decl.info, Decl.decls, hreach]
  by_cases h : info.loc ∈ st.Visited
  · simp [visitSelf_visited E AST Index Limit Path st info h, h]
  · rw [visitSelf_emit E AST Index Limit Path st info vc h hc]
    simp [h]

/-- The index lookup made for a declaration, by the predicate the walk
uses. -/
theorem subLocations_eq (D : DeclInfo) :
    subLocations E Index Limit Path D =
      match derivedPredicate D.kind with
      | some R => lookupIndex E Index Limit Path D R
      | none => [] := by
  obtain ⟨loc, impl, sid, kind⟩ := D
  cases kind with
  | FunctionDecl Info CXXMD =>
    cases CXXMD with
    | none => simp [subLocations, derivedPredicate]
    | some m => cases hv : m.isVirtual <;> simp [subLocations, derivedPredicate, hv]
  | CXXRecordDecl TemplSpec fin parents =>
    cases fin <;> simp [subLocations, derivedPredicate]
  | _ => simp [subLocations, derivedPredicate]

/-- The length of a `filterMap` whose function never fails. -/
theorem length_filterMap_of_isSome {α β : Type} (g : α → Option β) (l : List α)
    (h : ∀ a ∈ l, (g a).isSome) : (l.filterMap g).length = l.length := by
  induction l with
  | nil => rfl
  | cons a rest ih =>
    have ha := h a (List.mem_cons_self _ _)
    obtain ⟨b, hb⟩ := Option.isSome_iff_exists.1 ha
    rw [List.filterMap_cons_some hb]
    simp [ih (fun c hc => h c (List.mem_cons_of_mem _ hc))]

/-! ## The working declaration -/

/-- After the rejection tests `visitDecl` processes the working
declaration. -/
theorem visitDecl_eq_working (st : WalkState) (D : Decl) :
    visitDecl E AST Index Limit Path st D =
      if rejectDecl AST.SM D.info then st
      else visitWorking E AST Index Limit Path st D.working := by
  rw [visitDecl_eq]; rfl

/-- The processing of a working declaration, case by case. -/
theorem visitWorking_eq (st : WalkState) (W : Decl) :
    visitWorking E AST Index Limit Path st W =
      if W.info.loc ∈ st.Visited then st
      else
        match classify W.info.kind with
        | none => { Visited := W.info.loc :: st.Visited, Results := st.Results }
        | some VisitChildren =>
          if VisitChildren then
            visitScope E AST Index Limit Path
              { Visited := W.info.loc :: st.Visited
                Results := st.Results ++ declBlock E AST Index Limit Path W.info } W.decls
          else
            { Visited := W.info.loc :: st.Visited
              Results := st.Results ++ declBlock E AST Index Limit Path W.info } := by
  unfold visitWorking
  by_cases h : W.info.loc ∈ st.Visited
  · simp [visitSelf_visited E AST Index Limit Path st W.info h, h]
  · cases hc : classify W.info.kind with
    | none => simp [visitSelf_skip E AST Index Limit Path st W.info h hc, h]
    | some vc => simp [visitSelf_emit E AST Index Limit Path st W.info vc h hc, h]

/-- The visited set only grows during a visit. -/
theorem visitDecl_visited_mono (D : Decl) (st : WalkState) (k : SourceLocation)
    (hk : k ∈ st.Visited) : k ∈ (visitDecl E AST Index Limit Path st D).Visited := by
  refine (walk_rel E AST Index Limit Path (fun a b => ∀ k ∈ a.Visited, k ∈ b.Visited)
    (fun _ _ h => h) (fun _ _ _ hab hbc k h => hbc k (hab k h)) ?_ D).1 st k hk
  intro info a k h
  rw [visitSelf_spec]
  show k ∈ (if info.loc ∈ a.Visited then a.Visited else info.loc :: a.Visited)
  split
  · exact h
  · exact List.mem_cons_of_mem _ h

/-- The visited set only grows during the loop over a list. -/
theorem visitDecls_visited_mono (ds : List Decl) (st : WalkState) (k : SourceLocation)
    (hk : k ∈ st.Visited) : k ∈ (visitDecls E AST Index Limit Path st ds).Visited := by
  induction ds generalizing st with
  | nil => rw [visitDecls_nil]; exact hk
  | cons d rest ih =>
    rw [visitDecls_cons]
    exact ih _ (visitDecl_visited_mono E AST Index Limit Path d st k hk)

/-- The visited set only grows during the children loop. -/
theorem visitScope_visited_mono (decls : Option (List Decl)) (st : WalkState)
    (k : SourceLocation) (hk : k ∈ st.Visited) :
    k ∈ (visitScope E AST Index Limit Path st decls).Visited := by
  cases decls with
  | none => exact hk
  | some ds => exact visitDecls_visited_mono E AST Index Limit Path ds st k hk

/-- The supertype locations, by the declarations lines 122 and 131 iterate
over. -/
theorem superLocations_eq (D : DeclInfo) :
    superLocations E AST.SM D =
      D.kind.superDecls.filterMap (fun P => declToLocation E AST.SM (E.getCanonicalDecl P)) := by
  obtain ⟨loc, impl, sid, kind⟩ := D
  cases kind with
  | FunctionDecl Info CXXMD =>
    cases CXXMD <;> simp [superLocations, DeclKind.superDecls]
  | CXXRecordDecl TemplSpec fin parents => simp [superLocations, DeclKind.superDecls]
  | _ => simp [superLocations, DeclKind.superDecls]

/-- Two walks whose `visitSelf` steps agree on every declaration and state
agree on every tree: the index and the limit influence the walk only
through `visitSelf`. -/
theorem walk_congr (Index1 Index2 : Option SymbolIndex) (Limit1 Limit2 : Nat)
    (hself : ∀ info st, visitSelf E AST Index1 Limit1 Path info st =
      visitSelf E AST Index2 Limit2 Path info st) (D : Decl) :
    (∀ st, visitDecl E AST Index1 Limit1 Path st D = visitDecl E AST Index2 Limit2 Path st D) ∧
    (∀ st, visitScope E AST Index1 Limit1 Path st D.decls =
      visitScope E AST Index2 Limit2 Path st D.decls) := by
  induction D using Decl.induction with
  | h info templated decls iht ihd =>
    have hscope : ∀ st, visitScope E AST Index1 Limit1 Path st decls =
        visitScope E AST Index2 Limit2 Path st decls := by
      cases decls with
      | none => intro st; rfl
      | some ds =>
        have hall := ihd ds rfl
        simp only [visitScope]
        clear ihd
        induction ds with
        | nil => intro st; rw [visitDecls_nil, visitDecls_nil]
        | cons d rest ih =>
          intro st
          rw [visitDecls_cons, visitDecls_cons, (hall d (List.mem_cons_self _ _)).1 st,
            ih (fun x hx => hall x (List.mem_cons_of_mem _ hx))]
    refine ⟨?_, hscope⟩
    intro st
    rw [visitDecl_eq, visitDecl_eq, hself]
    have hkids : ∀ st, visitScope E AST Index1 Limit1 Path st
        (Decl.mk info templated decls).working.decls =
        visitScope E AST Index2 Limit2 Path st (Decl.mk info templated decls).working.decls := by
      by_cases hk : info.kind = .TemplateDecl
      · cases templated with
        | none =>
          have : (Decl.mk info none decls).working = Decl.mk info none decls := by
            simp [Decl.working, Decl.templated]
          rw [this]; exact hscope
        | some t =>
          have : (Decl.mk info (some t) decls).working = t := by
            simp [Decl.working, Decl.templated, Decl.info, hk]
          rw [this]; exact (iht t rfl).2
      · rw [working_of_not_template info templated decls hk]; exact hscope
    rw [hkids]

/-- The loop over a list agrees for two walks whose `visitSelf` steps
agree. -/
theorem walk_congr_list (Index1 Index2 : Option SymbolIndex) (Limit1 Limit2 : Nat)
    (hself : ∀ info st, visitSelf E AST Index1 Limit1 Path info st =
      visitSelf E AST Index2 Limit2 Path info st) (ds : List Decl) :
    ∀ st, visitDecls E AST Index1 Limit1 Path st ds =
      visitDecls E AST Index2 Limit2 Path st ds := by
  induction ds with
  | nil => intro st; rw [visitDecls_nil, visitDecls_nil]
  | cons d rest ih =>
    intro st
    rw [visitDecls_cons, visitDecls_cons,
      (walk_congr E AST Path Index1 Index2 Limit1 Limit2 hself d).1 st, ih]

/-- The block of a declaration that is not a namespace starts with its
marker. -/
theorem declBlock_of_not_namespace (D : DeclInfo) (h : D.kind.isNamespaceOrAlias = false) :
    declBlock E AST Index Limit Path D =
      markerLens Path (tokenRange AST.SM D.loc) ::
        (baseBlock E AST Path D ++ derivedBlock E AST Index Limit Path D) := by
  simp [declBlock, markerBlock, h]

/-- Without an index query the "derived" block is empty. -/
theorem derivedBlock_of_no_query (D : DeclInfo) (h : derivedPredicate D.kind = none) :
    derivedBlock E AST Index Limit Path D = [] := by
  unfold derivedBlock
  rw [subLocations_eq, h]
  simp

/-- Without an index query `visitSelf` does not depend on the index or on
the limit. -/
theorem visitSelf_of_no_query (Index2 : Option SymbolIndex) (Limit2 : Nat) (D : DeclInfo)
    (st : WalkState) (h : derivedPredicate D.kind = none) :
    visitSelf E AST Index Limit Path D st = visitSelf E AST Index2 Limit2 Path D st := by
  have h1 : subLocations E Index Limit Path D = [] := by rw [subLocations_eq, h]
  have h2 : subLocations E Index2 Limit2 Path D = [] := by rw [subLocations_eq, h]
  simp only [visitSelf, h1, h2]

/-- The children loop only appends to the results. -/
theorem visitScope_results_prefix (decls : Option (List Decl)) (st : WalkState) :
    ∃ out : List CodeLens,
      (visitScope E AST Index Limit Path st decls).Results = st.Results ++ out := by
  cases decls with
  | none => exact ⟨[], by simp [visitScope]⟩
  | some ds =>
    refine ⟨(preorderDecls E AST Index Limit Path st.Visited ds).2, ?_⟩
    simp only [visitScope]
    rw [visitDecls_refines]

/-- A declaration whose working key is already visited changes nothing,
whether or not it passes the rejection tests. -/
theorem visitDecl_of_visited (st : WalkState) (D : Decl)
    (h : D.working.info.loc ∈ st.Visited) :
    visitDecl E AST Index Limit Path st D = st := by
  rw [visitDecl_eq_working, visitWorking_eq]
  simp [h]

/-- Two indexes that answer every request with a non-zero limit alike give
the same lookup for a non-zero limit. -/
theorem lookupIndex_congr (idx1 idx2 : SymbolIndex) (D : DeclInfo) (R : RelationKind)
    (hlimit : Limit ≠ 0)
    (h : ∀ Req : RelationsRequest, Req.Limit ≠ some 0 → idx1.relations Req = idx2.relations Req) :
    lookupIndex E (some idx1) Limit Path D R = lookupIndex E (some idx2) Limit Path D R := by
  unfold lookupIndex
  cases D.symbolID with
  | none => rfl
  | some ID =>
    simp only
    rw [h _ (by simpa using hlimit)]

/-- The hierarchy commands of a declaration are anchored at the token of
the declaration's own location, are ready commands and carry no placeholder
data. -/
theorem hierarchy_blocks_anchor (D : DeclInfo) (r : CodeLens)
    (hr : r ∈ baseBlock E AST Path D ++ derivedBlock E AST Index Limit Path D) :
    r.range = ⟨AST.SM.sourceLocToPosition D.loc,
        AST.SM.sourceLocToPosition (AST.SM.getLocForEndOfToken D.loc)⟩ ∧
      r.data = none ∧ r.command ≠ none := by
  rcases List.mem_append.1 hr with h | h
  · unfold baseBlock at h
    split at h
    · simp only [List.mem_singleton] at h
      subst h
      simp [hierarchyLens, tokenRange]
    · simp at h
  · unfold derivedBlock at h
    split at h
    · simp only [List.mem_singleton] at h
      subst h
      simp [hierarchyLens, tokenRange]
    · simp at h

/-- A title ending in " base" is not a title ending in " derived". -/
theorem base_title_ne_derived_title (a b : String) : a ++ " base" ≠ b ++ " derived" := by
  intro h
  have h2 := congrArg (fun s => s.data.getLast?) h
  simp [String.data_append] at h2

/-- The lookup the walk makes in a capped index for a declaration with a
symbol id: the locations of the first `Limit` related entities that
convert. -/
theorem subLocations_cappedIndex (entries : List Relation) (D : DeclInfo) (ID : SymbolID)
    (R : RelationKind) (hID : D.symbolID = some ID) (hquery : derivedPredicate D.kind = some R) :
    subLocations E (some (cappedIndex entries)) Limit Path D =
      ((relatedEntities entries [ID] R).take Limit).filterMap
        (fun so => E.indexToLSPLocation so.2.CanonicalDeclaration Path) := by
  rw [subLocations_eq, hquery]
  simp [lookupIndex, hID, cappedIndex]

/-- When every object of the index resolves, so does every related entity. -/
theorem relatedEntities_resolve (entries : List Relation) (Subjects : List SymbolID)
    (R : RelationKind) (h : objectsResolve E Path entries = true) :
    ∀ so ∈ relatedEntities entries Subjects R,
      (E.indexToLSPLocation so.2.CanonicalDeclaration Path).isSome := by
  intro so hso
  simp only [relatedEntities, List.mem_map, List.mem_filter] at hso
  obtain ⟨e, ⟨he, -⟩, rfl⟩ := hso
  simp only [objectsResolve, List.all_eq_true] at h
  exact h e he

/-- With a capped index holding more related entities than the limit, all
resolving, the lookup yields exactly `Limit` locations. -/
theorem subLocations_cappedIndex_length (entries : List Relation) (D : DeclInfo)
    (ID : SymbolID) (R : RelationKind) (hID : D.symbolID = some ID)
    (hquery : derivedPredicate D.kind = some R)
    (hmore : Limit < (relatedEntities entries [ID] R).length)
    (hresolve : objectsResolve E Path entries = true) :
    (subLocations E (some (cappedIndex entries)) Limit Path D).length = Limit := by
  rw [subLocations_cappedIndex E Limit Path entries D ID R hID hquery,
    length_filterMap_of_isSome, List.length_take]
  · omega
  · intro so hso
    exact relatedEntities_resolve E Path entries [ID] R hresolve so (List.mem_of_mem_take hso)

end Walk

/-! ## Deferred resolution -/

/-- C1: `resolveCodeLens` fails exactly when the input record carries no
placeholder data: the result is the error "failed to resolve codelens" if
and only if `Params.data` is absent, and it is a successful record if and
only if `Params.data` is present, for every record, limit, index and path. -/
theorem resolveCodeLens_fails_iff_no_data (E : Externals) (AST : ParsedAST) (Params : CodeLens)
    (Limit : Nat) (Index : Option SymbolIndex) (Path : String) :
    (resolveCodeLens E AST Params Limit Index Path = .error "failed to resolve codelens" ↔
      Params.data = none) ∧
    ((∃ r, resolveCodeLens E AST Params Limit Index Path = .ok r) ↔ Params.data ≠ none) := by
  cases hd : Params.data with
  | none => simp [resolveCodeLens, hd]
  | some d => simp [resolveCodeLens, hd]

/-- C2: for an input record that carries placeholder data, `resolveCodeLens`
returns a record with the input range and no placeholder, whose command is
titled "<n> references" for the number n of references that the reference
search returns at `range.start` with the same limit, and whose argument holds
exactly the locations of those references, in the order of the search, with
position `range.start` and uri `Path`. -/
theorem resolveCodeLens_with_data (E : Externals) (AST : ParsedAST) (R : Range)
    (command : Option Command) (data : CodeLensResolveData) (Limit : Nat)
    (Index : Option SymbolIndex) (Path : String) :
    ∃ r c a,
      resolveCodeLens E AST ⟨R, command, some data⟩ Limit Index Path = .ok r ∧
      r.range = R ∧ r.data = none ∧ r.command = some c ∧
      c.title =
        toString (E.findReferences AST R.start Limit Index).References.length ++ " references" ∧
      c.command = E.SHOW_REFERENCES ∧
      c.argument = some a ∧
      a.locations = (E.findReferences AST R.start Limit Index).References.map (fun Ref => Ref.Loc) ∧
      a.locations.length = (E.findReferences AST R.start Limit Index).References.length ∧
      a.position = R.start ∧ a.uri = Path := by
  refine ⟨_, _, _, rfl, rfl, rfl, rfl, rfl, rfl, rfl, rfl, ?_, rfl, rfl⟩
  simp

/-! ## The document walk -/

/-- C7: the output of `getDocumentCodeLens` is the pre-order, source-order
concatenation of per-declaration blocks computed by `preorderDecls` from the
empty visited set: the block of a declaration precedes the records of its
children, the children and the top-level declarations contribute in their
given order, and each block is the marker, then the "base" command, then the
"derived" command. -/
theorem getDocumentCodeLens_preorder (E : Externals) (AST : ParsedAST)
    (Index : Option SymbolIndex) (Limit : Nat) (Path : String) :
    getDocumentCodeLens E AST Index Limit Path =
      .ok (preorderDecls E AST Index (effectiveLimit Limit) Path []
        AST.LocalTopLevelDecls).2 ∧
    ∀ D : DeclInfo, declBlock E AST Index (effectiveLimit Limit) Path D =
      markerBlock AST Path D ++ baseBlock E AST Path D ++
        derivedBlock E AST Index (effectiveLimit Limit) Path D := by
  refine ⟨?_, fun _ => rfl⟩
  simp only [getDocumentCodeLens, effectiveLimit]
  rw [visitDecls_refines]
  simp

/-- C3: de-duplication. The marker records in the output of one
`getDocumentCodeLens` call are anchored, one for one and in order, at a list
of location keys without repetition; so every key (in particular the key
shared by a template pattern and its explicit specialization or
instantiation) anchors at most one marker, whatever the tree, and when
distinct locations have distinct positions the marker ranges are pairwise
distinct. -/
theorem getDocumentCodeLens_marker_keys_nodup (E : Externals) (AST : ParsedAST)
    (Index : Option SymbolIndex) (Limit : Nat) (Path : String) :
    ∃ (out : List CodeLens) (keys : List SourceLocation),
      getDocumentCodeLens E AST Index Limit Path = .ok out ∧
      (markers out).map (fun r => r.range) = keys.map (tokenRange AST.SM) ∧
      keys.Nodup ∧ (∀ k, keys.count k ≤ 1) ∧
      (Function.Injective AST.SM.sourceLocToPosition →
        ((markers out).map (fun r => r.range)).Nodup) := by
  obtain ⟨L, hn, -, -, hm⟩ := visitDecls_marker_keys E AST Index (effectiveLimit Limit) Path
    AST.LocalTopLevelDecls { Visited := [], Results := [] }
  refine ⟨_, L, rfl, ?_, hn, fun k => List.nodup_iff_count_le_one.1 hn k, ?_⟩
  · simpa [markers, effectiveLimit] using hm
  · intro hinj
    have hm2 : (markers (visitDecls E AST Index (effectiveLimit Limit) Path
        { Visited := [], Results := [] } AST.LocalTopLevelDecls).Results).map
          (fun r => r.range) = L.map (tokenRange AST.SM) := by
      simpa [markers] using hm
    show ((markers (visitDecls E AST Index (effectiveLimit Limit) Path
        { Visited := [], Results := [] } AST.LocalTopLevelDecls).Results).map
          (fun r => r.range)).Nodup
    rw [hm2]
    refine List.Nodup.map ?_ hn
    intro a b hab
    simp only [tokenRange, Range.mk.injEq] at hab
    exact hinj hab.1

/-- The sample unit, whose template pattern and explicit instantiation share
location 90, has pairwise distinct marker ranges. -/
theorem getDocumentCodeLens_marker_keys_nodup_witness :
    ∃ (out : List CodeLens),
      getDocumentCodeLens Sample.E Sample.AST (some Sample.Index) 0 "/main.cpp" = .ok out ∧
      ((markers out).map (fun r => r.range)).Nodup := by
  obtain ⟨out, keys, h1, -, -, -, h5⟩ :=
    getDocumentCodeLens_marker_keys_nodup Sample.E Sample.AST (some Sample.Index) 0 "/main.cpp"
  refine ⟨out, h1, h5 ?_⟩
  intro a b hab
  simpa [Sample.AST, Sample.SM] using hab

/-- C8: title/count invariant. Every record in the output of
`getDocumentCodeLens` that carries a command has an argument whose location
list has length at least 1, and a title equal to the decimal rendering of
that length followed by " base" or " derived". -/
theorem getDocumentCodeLens_title_count (E : Externals) (AST : ParsedAST)
    (Index : Option SymbolIndex) (Limit : Nat) (Path : String) (out : List CodeLens)
    (hout : getDocumentCodeLens E AST Index Limit Path = .ok out)
    (r : CodeLens) (hr : r ∈ out) (cmd : Command) (hcmd : r.command = some cmd) :
    ∃ arg : CodeLensArgument, cmd.argument = some arg ∧ 1 ≤ arg.locations.length ∧
      (cmd.title = toString arg.locations.length ++ " base" ∨
        cmd.title = toString arg.locations.length ++ " derived") := by
  simp only [getDocumentCodeLens, Except.ok.injEq] at hout
  subst hout
  have hall := visitDecls_records_all E AST Index (effectiveLimit Limit) Path
    (fun r => ∀ cmd, r.command = some cmd →
      ∃ arg : CodeLensArgument, cmd.argument = some arg ∧ 1 ≤ arg.locations.length ∧
        (cmd.title = toString arg.locations.length ++ " base" ∨
          cmd.title = toString arg.locations.length ++ " derived"))
    (by
      intro D r hr cmd hcmd
      rcases declBlock_shape E AST Index (effectiveLimit Limit) Path D r hr with
        h | ⟨locs, hne, h⟩ | ⟨locs, hne, h⟩
      · subst h; simp [markerLens] at hcmd
      · subst h
        simp only [hierarchyLens, Option.some.injEq] at hcmd
        subst hcmd
        exact ⟨_, rfl, List.length_pos.2 hne, Or.inl rfl⟩
      · subst h
        simp only [hierarchyLens, Option.some.injEq] at hcmd
        subst hcmd
        exact ⟨_, rfl, List.length_pos.2 hne, Or.inr rfl⟩)
    AST.LocalTopLevelDecls { Visited := [], Results := [] } (by simp)
  exact hall r hr cmd hcmd

/-- The "1 derived" command of `Base` in the sample unit has one location
and the title "1 derived". -/
theorem getDocumentCodeLens_title_count_witness :
    ∃ arg : CodeLensArgument,
      (Command.mk "clangd.action.showReferences" "1 derived"
        (some ⟨"/main.cpp", ⟨0, 7⟩, [⟨"/main.cpp", ⟨⟨0, 24⟩, ⟨0, 25⟩⟩⟩]⟩)).argument = some arg ∧
      1 ≤ arg.locations.length ∧
      ("1 derived" = toString arg.locations.length ++ " base" ∨
        "1 derived" = toString arg.locations.length ++ " derived") :=
  getDocumentCodeLens_title_count Sample.E Sample.AST (some Sample.Index) 0 "/main.cpp"
    _ rfl
    ⟨⟨⟨0, 7⟩, ⟨0, 8⟩⟩,
      some (Command.mk "clangd.action.showReferences" "1 derived"
        (some ⟨"/main.cpp", ⟨0, 7⟩, [⟨"/main.cpp", ⟨⟨0, 24⟩, ⟨0, 25⟩⟩⟩]⟩)), none⟩
    (by decide) _ rfl

/-- C9: marker/command exclusivity. No record in the output of
`getDocumentCodeLens` carries both a command and placeholder data: a record
with placeholder data has no command, and a record with a command has no
placeholder data. -/
theorem getDocumentCodeLens_marker_command_exclusive (E : Externals) (AST : ParsedAST)
    (Index : Option SymbolIndex) (Limit : Nat) (Path : String) (out : List CodeLens)
    (hout : getDocumentCodeLens E AST Index Limit Path = .ok out)
    (r : CodeLens) (hr : r ∈ out) :
    ¬ (r.command.isSome ∧ r.data.isSome) ∧ (r.data.isSome → r.command = none) ∧
      (r.command.isSome → r.data = none) := by
  simp only [getDocumentCodeLens, Except.ok.injEq] at hout
  subst hout
  have hall := visitDecls_records_all E AST Index (effectiveLimit Limit) Path
    (fun r => (r.command = none ∧ r.data.isSome) ∨ (r.command.isSome ∧ r.data = none))
    (by
      intro D r hr
      rcases declBlock_shape E AST Index (effectiveLimit Limit) Path D r hr with
        h | ⟨locs, -, h⟩ | ⟨locs, -, h⟩
      · subst h; left; simp [markerLens]
      · subst h; right; simp [hierarchyLens]
      · subst h; right; simp [hierarchyLens])
    AST.LocalTopLevelDecls { Visited := [], Results := [] } (by simp)
  rcases hall r hr with ⟨h1, h2⟩ | ⟨h1, h2⟩
  · simp [h1, h2]
  · simp [h1, h2]

/-- The marker of `Base` in the sample unit carries placeholder data and no
command. -/
theorem getDocumentCodeLens_marker_command_exclusive_witness :
    ¬ ((none : Option Command).isSome ∧
        (some (CodeLensResolveData.mk "/main.cpp")).isSome) ∧
      ((some (CodeLensResolveData.mk "/main.cpp")).isSome → (none : Option Command) = none) ∧
      ((none : Option Command).isSome → some (CodeLensResolveData.mk "/main.cpp") = none) :=
  getDocumentCodeLens_marker_command_exclusive Sample.E Sample.AST (some Sample.Index) 0
    "/main.cpp" _ rfl ⟨⟨⟨0, 7⟩, ⟨0, 8⟩⟩, none, some ⟨"/main.cpp"⟩⟩ (by decide)

/-- C4 (as stated, refuted): in the unit `ShadowAST` namespace `N` passes
the rejection tests and is reached by the walk, but its key 45 is already in
`Visited`, so its children `f` and `Inner` are not visited: the whole output
is the marker of the earlier declaration, although walking the children of
`N` from the state in which `N` is reached appends two markers. -/
theorem namespace_children_skipped_when_key_visited :
    rejectDecl Sample.ShadowAST.SM Sample.N.info = false ∧
    getDocumentCodeLens Sample.E Sample.ShadowAST (some Sample.Index) 0 "/main.cpp" =
      .ok [markerLens "/main.cpp" ⟨⟨0, 45⟩, ⟨0, 46⟩⟩] ∧
    (visitScope Sample.E Sample.ShadowAST (some Sample.Index) 4294967295 "/main.cpp"
      { Visited := [45], Results := [markerLens "/main.cpp" ⟨⟨0, 45⟩, ⟨0, 46⟩⟩] }
      Sample.N.decls).Results =
      [markerLens "/main.cpp" ⟨⟨0, 45⟩, ⟨0, 46⟩⟩, markerLens "/main.cpp" ⟨⟨0, 54⟩, ⟨0, 55⟩⟩,
        markerLens "/main.cpp" ⟨⟨0, 66⟩, ⟨0, 67⟩⟩] := by
  refine ⟨by decide, rfl, by decide⟩

/-- C4 (amended): namespace exclusion. A namespace or namespace-alias
declaration that passes the rejection tests and whose key is not yet visited
emits no record of its own (its block is empty, so no marker is anchored at
it), its key is inserted into `Visited`, and its children are visited: the
state after the visit is the state after walking the children, in source
order, from that visited set and the unchanged results. -/
theorem namespace_transparent (E : Externals) (AST : ParsedAST) (Index : Option SymbolIndex)
    (Limit : Nat) (Path : String) (st : WalkState) (info : DeclInfo) (templated : Option Decl)
    (decls : Option (List Decl)) (hkind : info.kind.isNamespaceOrAlias = true)
    (hreach : rejectDecl AST.SM info = false) (hnew : info.loc ∉ st.Visited) :
    declBlock E AST Index Limit Path info = [] ∧
    visitDecl E AST Index Limit Path st (.mk info templated decls) =
      visitScope E AST Index Limit Path
        { Visited := info.loc :: st.Visited, Results := st.Results } decls := by
  have hk : info.kind = .NamespaceDecl ∨ info.kind = .NamespaceAliasDecl := by
    cases h : info.kind <;> simp [h, DeclKind.isNamespaceOrAlias] at hkind ⊢
  have hblock : declBlock E AST Index Limit Path info = [] := by
    rcases hk with h | h <;>
      simp [declBlock, markerBlock, baseBlock, derivedBlock, superLocations, subLocations, h,
        DeclKind.isNamespaceOrAlias]
  have hc : classify info.kind = some true := by
    rcases hk with h | h <;> simp [h, classify]
  have hnt : info.kind ≠ .TemplateDecl := by
    rcases hk with h | h <;> simp [h]
  refine ⟨hblock, ?_⟩
  rw [visitDecl_accept E AST Index Limit Path st info templated decls true hnt hreach hc]
  simp [hnew, hblock]

/-- Namespace `N` of the sample unit, visited from the empty state: no
record of its own, and its two children are walked. -/
theorem namespace_transparent_witness :
    declBlock Sample.E Sample.AST (some Sample.Index) 10 "/main.cpp" Sample.N.info = [] ∧
    visitDecl Sample.E Sample.AST (some Sample.Index) 10 "/main.cpp"
        { Visited := [], Results := [] } Sample.N =
      visitScope Sample.E Sample.AST (some Sample.Index) 10 "/main.cpp"
        { Visited := [45], Results := [] } (some [Sample.f, Sample.Inner]) :=
  namespace_transparent Sample.E Sample.AST (some Sample.Index) 10 "/main.cpp"
    { Visited := [], Results := [] } ⟨45, false, none, .NamespaceDecl⟩ none
    (some [Sample.f, Sample.Inner]) (by decide) (by decide) (by decide)

/-- C10: explicit instantiation. A class template specialization that is an
explicit instantiation, passes the rejection tests and has an unvisited key
has its key inserted and appends exactly its own block: first the marker,
which is the record whose range is the token at the location of the
instantiation, with no command and with placeholder data for `Path`, then
its hierarchy commands, which are anchored at the same token and carry no
placeholder data, so that exactly one marker is emitted. No child is
visited: the resulting state is the one obtained when the declaration has
no children at all. -/
theorem explicit_instantiation_marker_only (E : Externals) (AST : ParsedAST)
    (Index : Option SymbolIndex) (Limit : Nat) (Path : String) (st : WalkState)
    (info : DeclInfo) (templated : Option Decl) (decls : Option (List Decl))
    (isEffectivelyFinal : Bool) (typeParents : List DeclPtr)
    (hkind : info.kind =
      .CXXRecordDecl (some .ExplicitInstantiation) isEffectivelyFinal typeParents)
    (hreach : rejectDecl AST.SM info = false) (hnew : info.loc ∉ st.Visited) :
    visitDecl E AST Index Limit Path st (.mk info templated decls) =
      { Visited := info.loc :: st.Visited
        Results := st.Results ++
          ({ range := ⟨AST.SM.sourceLocToPosition info.loc,
              AST.SM.sourceLocToPosition (AST.SM.getLocForEndOfToken info.loc)⟩
             command := none
             data := some { uri := Path } } ::
            (baseBlock E AST Path info ++ derivedBlock E AST Index Limit Path info)) } ∧
    (∀ r ∈ baseBlock E AST Path info ++ derivedBlock E AST Index Limit Path info,
      r.range = ⟨AST.SM.sourceLocToPosition info.loc,
          AST.SM.sourceLocToPosition (AST.SM.getLocForEndOfToken info.loc)⟩ ∧
        r.data = none ∧ r.command ≠ none) ∧
    (((visitDecl E AST Index Limit Path st (.mk info templated decls)).Results.drop
        st.Results.length).filter (fun r => r.data.isSome)) =
      [{ range := ⟨AST.SM.sourceLocToPosition info.loc,
          AST.SM.sourceLocToPosition (AST.SM.getLocForEndOfToken info.loc)⟩
         command := none
         data := some { uri := Path } }] ∧
    visitDecl E AST Index Limit Path st (.mk info templated decls) =
      visitDecl E AST Index Limit Path st (.mk info templated none) := by
  have hc : classify info.kind = some false := by
    simp [hkind, classify, TemplateSpecializationKind.isExplicitInstantiationOrSpecialization,
      TemplateSpecializationKind.isExplicitSpecialization]
  have hnt : info.kind ≠ .TemplateDecl := by simp [hkind]
  have hb := declBlock_of_not_namespace E AST Index Limit Path info
    (by simp [hkind, DeclKind.isNamespaceOrAlias])
  have hanchor := hierarchy_blocks_anchor E AST Index Limit Path info
  have hstate : visitDecl E AST Index Limit Path st (.mk info templated decls) =
      { Visited := info.loc :: st.Visited
        Results := st.Results ++
          ({ range := ⟨AST.SM.sourceLocToPosition info.loc,
              AST.SM.sourceLocToPosition (AST.SM.getLocForEndOfToken info.loc)⟩
             command := none
             data := some { uri := Path } } ::
            (baseBlock E AST Path info ++ derivedBlock E AST Index Limit Path info)) } := by
    rw [visitDecl_accept E AST Index Limit Path st info templated decls false hnt hreach hc]
    simp [hnew, hb, markerLens, tokenRange]
  refine ⟨hstate, hanchor, ?_, ?_⟩
  · rw [hstate]
    simp only [List.drop_left, List.filter_cons, Option.isSome_some, if_true]
    have hnone : (baseBlock E AST Path info ++
        derivedBlock E AST Index Limit Path info).filter (fun r => r.data.isSome) = [] := by
      rw [List.filter_eq_nil_iff]
      intro r hr
      simp [(hanchor r hr).2.1]
    rw [hnone]
  · rw [visitDecl_accept E AST Index Limit Path st info templated decls false hnt hreach hc,
      visitDecl_accept E AST Index Limit Path st info templated none false hnt hreach hc]
    simp

/-- The explicit instantiation `template struct Vec<int>;` of the sample
unit, visited first: one marker spanning columns 90 to 91 and nothing for
the field it contains. -/
theorem explicit_instantiation_marker_only_witness :
    visitDecl Sample.E Sample.AST (some Sample.Index) 10 "/main.cpp"
        { Visited := [], Results := [] } Sample.VecInt =
      { Visited := [90]
        Results := [{ range := ⟨⟨0, 90⟩, ⟨0, 91⟩⟩, command := none
                      data := some { uri := "/main.cpp" } }] } := by
  have h := (explicit_instantiation_marker_only Sample.E Sample.AST (some Sample.Index) 10
    "/main.cpp" { Visited := [], Results := [] }
    ⟨90, false, some 7, .CXXRecordDecl (some .ExplicitInstantiation) false []⟩ none
    (some [Sample.x]) false [] rfl (by decide) (by decide)).1
  rw [show Sample.VecInt = Decl.mk
    ⟨90, false, some 7, .CXXRecordDecl (some .ExplicitInstantiation) false []⟩ none
    (some [Sample.x]) from rfl, h]
  decide

/-- C5 (as stated, refuted): four classes without the "derived" or "base"
command the claim promises. Asked about symbol 1 the index reports exactly
one subclass, whose location converts. `FinalBase` (symbol 1, no supertype)
is effectively final, and the walk emits only its marker. `Base` (symbol 1,
no supertype) in the unit `TwinAST` is reached when its key 7 is already
visited, and the walk emits nothing for it. `BaseImplicit` (symbol 1, no
supertype) is an implicit instantiation, and the walk emits nothing.
`Orphan` declares exactly one supertype and has no indexed subclass, but the
location of the supertype cannot be canonicalized, and the walk emits only
its marker and no "base" command. -/
theorem hierarchy_commands_need_open_class_and_location :
    (Sample.Index.relations { Subjects := [1], Predicate := .BaseOf, Limit := some 4294967295 } =
        [(1, Sample.DerivedSymbol)] ∧
      Sample.E.indexToLSPLocation Sample.DerivedSymbol.CanonicalDeclaration "/main.cpp" =
        some ⟨"/main.cpp", ⟨⟨0, 24⟩, ⟨0, 25⟩⟩⟩) ∧
    (Sample.FinalBase.info = ⟨7, false, some 1, .CXXRecordDecl none true []⟩ ∧
      rejectDecl Sample.FinalAST.SM Sample.FinalBase.info = false ∧
      getDocumentCodeLens Sample.E Sample.FinalAST (some Sample.Index) 0 "/main.cpp" =
        .ok [{ range := ⟨⟨0, 7⟩, ⟨0, 8⟩⟩, command := none
               data := some { uri := "/main.cpp" } }]) ∧
    (Sample.Base.info = ⟨7, false, some 1, .CXXRecordDecl none false []⟩ ∧
      rejectDecl Sample.TwinAST.SM Sample.Base.info = false ∧
      Sample.BaseTwin.info.kind = .NamedDecl ∧
      getDocumentCodeLens Sample.E Sample.TwinAST (some Sample.Index) 0 "/main.cpp" =
        .ok [{ range := ⟨⟨0, 7⟩, ⟨0, 8⟩⟩, command := none
               data := some { uri := "/main.cpp" } }]) ∧
    (Sample.BaseImplicit.info =
        ⟨7, false, some 1, .CXXRecordDecl (some .ImplicitInstantiation) false []⟩ ∧
      rejectDecl Sample.ImplicitAST.SM Sample.BaseImplicit.info = false ∧
      getDocumentCodeLens Sample.E Sample.ImplicitAST (some Sample.Index) 0 "/main.cpp" =
        .ok []) ∧
    (Sample.Orphan.info = ⟨30, false, some 9, .CXXRecordDecl none false [2000]⟩ ∧
      rejectDecl Sample.OrphanAST.SM Sample.Orphan.info = false ∧
      Sample.Index.relations { Subjects := [9], Predicate := .BaseOf, Limit := some 4294967295 } =
        [] ∧
      declToLocation Sample.E Sample.OrphanAST.SM (Sample.E.getCanonicalDecl 2000) = none ∧
      getDocumentCodeLens Sample.E Sample.OrphanAST (some Sample.Index) 0 "/main.cpp" =
        .ok [{ range := ⟨⟨0, 30⟩, ⟨0, 31⟩⟩, command := none
               data := some { uri := "/main.cpp" } }]) := by
  refine ⟨⟨by decide, by decide⟩, ⟨by decide, by decide, rfl⟩, ⟨by decide, by decide, by decide, rfl⟩,
    ⟨by decide, by decide, rfl⟩, ⟨by decide, by decide, by decide, by decide, rfl⟩⟩

/-- C5 (amended): hierarchy asymmetry. Let A be a class that passes the
rejection tests and the template tests and has an unvisited key. If A is not
effectively final, declares no supertype, and the index, asked for the
`BaseOf` relations of the symbol id of A with the limit of the walk, reports
exactly one subclass, whose canonical declaration converts to the location
B, then the walk appends for A its marker followed by a "1 derived" command
holding B, and no "base" command. If A declares exactly one supertype C
whose location canonicalizes to `LocC`, and the index (if there is one, and
if A has a symbol id) reports no subclass, then the walk appends for A its
marker followed by a "1 base" command holding `LocC`, and no "derived"
command. In both cases the key is inserted and the walk goes on to the
children as `VisitChildren` says. -/
theorem hierarchy_asymmetry (E : Externals) (AST : ParsedAST) (Index : Option SymbolIndex)
    (Limit : Nat) (Path : String) (st : WalkState) (info : DeclInfo) (templated : Option Decl)
    (decls : Option (List Decl)) (TemplSpec : Option TemplateSpecializationKind)
    (isEffectivelyFinal : Bool) (typeParents : List DeclPtr) (VisitChildren : Bool)
    (hkind : info.kind = .CXXRecordDecl TemplSpec isEffectivelyFinal typeParents)
    (hreach : rejectDecl AST.SM info = false) (hnew : info.loc ∉ st.Visited)
    (hc : classify info.kind = some VisitChildren) :
    (∀ (idx : SymbolIndex) (ID S : SymbolID) (Object : Symbol) (B : Location),
      Index = some idx → info.symbolID = some ID →
      isEffectivelyFinal = false → typeParents = [] →
      idx.relations { Subjects := [ID], Predicate := .BaseOf, Limit := some Limit } =
        [(S, Object)] →
      E.indexToLSPLocation Object.CanonicalDeclaration Path = some B →
      visitDecl E AST Index Limit Path st (.mk info templated decls) =
        (if VisitChildren then visitScope E AST Index Limit Path
          { Visited := info.loc :: st.Visited
            Results := st.Results ++
              [{ range := ⟨AST.SM.sourceLocToPosition info.loc,
                  AST.SM.sourceLocToPosition (AST.SM.getLocForEndOfToken info.loc)⟩
                 command := none
                 data := some { uri := Path } },
               { range := ⟨AST.SM.sourceLocToPosition info.loc,
                  AST.SM.sourceLocToPosition (AST.SM.getLocForEndOfToken info.loc)⟩
                 command := some
                   { command := E.SHOW_REFERENCES
                     title := "1 derived"
                     argument := some
                       { uri := Path
                         position := AST.SM.sourceLocToPosition info.loc
                         locations := [B] } }
                 data := none }] } decls
        else
          { Visited := info.loc :: st.Visited
            Results := st.Results ++
              [{ range := ⟨AST.SM.sourceLocToPosition info.loc,
                  AST.SM.sourceLocToPosition (AST.SM.getLocForEndOfToken info.loc)⟩
                 command := none
                 data := some { uri := Path } },
               { range := ⟨AST.SM.sourceLocToPosition info.loc,
                  AST.SM.sourceLocToPosition (AST.SM.getLocForEndOfToken info.loc)⟩
                 command := some
                   { command := E.SHOW_REFERENCES
                     title := "1 derived"
                     argument := some
                       { uri := Path
                         position := AST.SM.sourceLocToPosition info.loc
                         locations := [B] } }
                 data := none }] })) ∧
    (∀ (C : DeclPtr) (LocC : Location), typeParents = [C] →
      declToLocation E AST.SM (E.getCanonicalDecl C) = some LocC →
      (∀ (idx : SymbolIndex) (ID : SymbolID), Index = some idx → info.symbolID = some ID →
        idx.relations { Subjects := [ID], Predicate := .BaseOf, Limit := some Limit } = []) →
      visitDecl E AST Index Limit Path st (.mk info templated decls) =
        (if VisitChildren then visitScope E AST Index Limit Path
          { Visited := info.loc :: st.Visited
            Results := st.Results ++
              [{ range := ⟨AST.SM.sourceLocToPosition info.loc,
                  AST.SM.sourceLocToPosition (AST.SM.getLocForEndOfToken info.loc)⟩
                 command := none
                 data := some { uri := Path } },
               { range := ⟨AST.SM.sourceLocToPosition info.loc,
                  AST.SM.sourceLocToPosition (AST.SM.getLocForEndOfToken info.loc)⟩
                 command := some
                   { command := E.SHOW_REFERENCES
                     title := "1 base"
                     argument := some
                       { uri := Path
                         position := AST.SM.sourceLocToPosition info.loc
                         locations := [LocC] } }
                 data := none }] } decls
        else
          { Visited := info.loc :: st.Visited
            Results := st.Results ++
              [{ range := ⟨AST.SM.sourceLocToPosition info.loc,
                  AST.SM.sourceLocToPosition (AST.SM.getLocForEndOfToken info.loc)⟩
                 command := none
                 data := some { uri := Path } },
               { range := ⟨AST.SM.sourceLocToPosition info.loc,
                  AST.SM.sourceLocToPosition (AST.SM.getLocForEndOfToken info.loc)⟩
                 command := some
                   { command := E.SHOW_REFERENCES
                     title := "1 base"
                     argument := some
                       { uri := Path
                         position := AST.SM.sourceLocToPosition info.loc
                         locations := [LocC] } }
                 data := none }] })) := by
  have hnt : info.kind ≠ .TemplateDecl := by simp [hkind]
  have hone : ∀ suffix : String, toString 1 ++ suffix = "1" ++ suffix := fun _ => rfl
  refine ⟨?_, ?_⟩
  · intro idx ID S Object B hidx hID hfin hpar hrel hconv
    subst hfin hpar hidx
    have hsub : subLocations E (some idx) Limit Path info = [B] := by
      simp [subLocations, hkind, lookupIndex, hID, hrel, hconv]
    have hblock : declBlock E AST (some idx) Limit Path info =
        [markerLens Path (tokenRange AST.SM info.loc),
          hierarchyLens E Path (tokenRange AST.SM info.loc) " derived" [B]] := by
      simp [declBlock, markerBlock, baseBlock, derivedBlock, superLocations, hsub, hkind,
        DeclKind.isNamespaceOrAlias]
    rw [visitDecl_accept E AST (some idx) Limit Path st info templated decls VisitChildren hnt
      hreach hc, hblock]
    simp only [hnew, if_false, markerLens, hierarchyLens, tokenRange, List.length_singleton,
      hone]
    rfl
  · intro C LocC hpar hloc hnone
    subst hpar
    have hsub : subLocations E Index Limit Path info = [] := by
      simp only [subLocations, hkind]
      split
      · unfold lookupIndex
        cases hI : Index with
        | none => rfl
        | some idx =>
          cases hS : info.symbolID with
          | none => rfl
          | some ID => simp [hnone idx ID hI hS]
      · rfl
    have hblock : declBlock E AST Index Limit Path info =
        [markerLens Path (tokenRange AST.SM info.loc),
          hierarchyLens E Path (tokenRange AST.SM info.loc) " base" [LocC]] := by
      simp [declBlock, markerBlock, baseBlock, derivedBlock, superLocations, hsub, hkind, hloc,
        DeclKind.isNamespaceOrAlias]
    rw [visitDecl_accept E AST Index Limit Path st info templated decls VisitChildren hnt
      hreach hc, hblock]
    simp only [hnew, if_false, markerLens, hierarchyLens, tokenRange, List.length_singleton,
      hone]
    rfl

/-- The sample unit: `Base`, visited first, gets its marker and a
"1 derived" command pointing at `Derived`; `Derived`, visited first, gets its
marker and a "1 base" command pointing at `Base`. -/
theorem hierarchy_asymmetry_witness :
    visitDecl Sample.E Sample.AST (some Sample.Index) 10 "/main.cpp"
        { Visited := [], Results := [] } Sample.Base =
      { Visited := [7]
        Results :=
          [{ range := ⟨⟨0, 7⟩, ⟨0, 8⟩⟩, command := none, data := some { uri := "/main.cpp" } },
           { range := ⟨⟨0, 7⟩, ⟨0, 8⟩⟩
             command := some
               { command := "clangd.action.showReferences"
                 title := "1 derived"
                 argument := some
                   { uri := "/main.cpp", position := ⟨0, 7⟩
                     locations := [⟨"/main.cpp", ⟨⟨0, 24⟩, ⟨0, 25⟩⟩⟩] } }
             data := none }] } ∧
    visitDecl Sample.E Sample.AST (some Sample.Index) 10 "/main.cpp"
        { Visited := [], Results := [] } Sample.Derived =
      { Visited := [24]
        Results :=
          [{ range := ⟨⟨0, 24⟩, ⟨0, 25⟩⟩, command := none, data := some { uri := "/main.cpp" } },
           { range := ⟨⟨0, 24⟩, ⟨0, 25⟩⟩
             command := some
               { command := "clangd.action.showReferences"
                 title := "1 base"
                 argument := some
                   { uri := "/main.cpp", position := ⟨0, 24⟩
                     locations := [⟨"/main.cpp", ⟨⟨0, 7⟩, ⟨0, 8⟩⟩⟩] } }
             data := none }] } :=
  ⟨(hierarchy_asymmetry Sample.E Sample.AST (some Sample.Index) 10 "/main.cpp"
      { Visited := [], Results := [] } Sample.Base.info none (some []) none false [] true
      rfl (by decide) (by decide) rfl).1 Sample.Index 1 1 Sample.DerivedSymbol
      ⟨"/main.cpp", ⟨⟨0, 24⟩, ⟨0, 25⟩⟩⟩ rfl rfl rfl rfl (by decide) (by decide),
    (hierarchy_asymmetry Sample.E Sample.AST (some Sample.Index) 10 "/main.cpp"
      { Visited := [], Results := [] } Sample.Derived.info none (some []) none false [7] true
      rfl (by decide) (by decide) rfl).2 7 ⟨"/main.cpp", ⟨⟨0, 7⟩, ⟨0, 8⟩⟩⟩ rfl (by decide)
      (by
        intro idx ID hidx hID
        cases hidx
        cases hID
        decide)⟩

/-- C6: limit respected. Let the index be the capped index of the
specification, all of whose objects resolve, let the declaration be a class
or a virtual method with a symbol id, and let the index hold more entities
related to it than the caller's non-zero limit. Then every "derived"
command that the visit of the declaration appends has a title stating
exactly the limit and a location list of exactly `Limit` entries, fewer than
the index holds; and when the declaration is accepted by the walk and
queried (a class that is not effectively final, or a virtual method), the
visit appends its marker block, its "base" block and that "derived"
command, whose locations are those of the first `Limit` related
entities. -/
theorem derived_count_equals_limit (E : Externals) (AST : ParsedAST)
    (entries : List Relation) (Limit : Nat) (Path : String) (st : WalkState)
    (info : DeclInfo) (ID : SymbolID) (R : RelationKind)
    (hlimit : Limit ≠ 0)
    (hkind : (∃ Spec fin parents, info.kind = .CXXRecordDecl Spec fin parents ∧ R = .BaseOf) ∨
      (∃ Spec overridden,
        info.kind = .FunctionDecl Spec (some ⟨true, overridden⟩) ∧ R = .OverriddenBy))
    (hID : info.symbolID = some ID)
    (hmore : Limit < (relatedEntities entries [ID] R).length)
    (hresolve : objectsResolve E Path entries = true) :
    (∀ (r : CodeLens) (cmd : Command) (n : Nat),
      r ∈ (visitSelf E AST (some (cappedIndex entries)) (effectiveLimit Limit) Path info
        st).1.Results.drop st.Results.length →
      r.command = some cmd → cmd.title = toString n ++ " derived" →
      ∃ arg : CodeLensArgument, cmd.argument = some arg ∧
        arg.locations.length = Limit ∧ cmd.title = toString Limit ++ " derived" ∧
        arg.locations.length < (relatedEntities entries [ID] R).length) ∧
    (∀ VisitChildren : Bool, info.loc ∉ st.Visited →
      classify info.kind = some VisitChildren → derivedPredicate info.kind = some R →
      ∃ locs : List Location,
        locs = ((relatedEntities entries [ID] R).take Limit).filterMap
          (fun so => E.indexToLSPLocation so.2.CanonicalDeclaration Path) ∧
        locs.length = Limit ∧
        (visitSelf E AST (some (cappedIndex entries)) (effectiveLimit Limit) Path info
          st).1.Results =
          st.Results ++ (markerBlock AST Path info ++ baseBlock E AST Path info ++
            [{ range := ⟨AST.SM.sourceLocToPosition info.loc,
                AST.SM.sourceLocToPosition (AST.SM.getLocForEndOfToken info.loc)⟩
               command := some
                 { command := E.SHOW_REFERENCES
                   title := toString Limit ++ " derived"
                   argument := some
                     { uri := Path
                       position := AST.SM.sourceLocToPosition info.loc
                       locations := locs } }
               data := none }])) := by
  have heff : effectiveLimit Limit = Limit := by simp [effectiveLimit, hlimit]
  rw [heff]
  have hlen : ∀ hq : derivedPredicate info.kind = some R,
      (subLocations E (some (cappedIndex entries)) Limit Path info).length = Limit :=
    fun hq => subLocations_cappedIndex_length E Limit Path entries info ID R hID hq hmore
      hresolve
  refine ⟨?_, ?_⟩
  · intro r cmd n hr hcmd htitle
    rw [visitSelf_spec] at hr
    simp only [List.drop_left] at hr
    have hblock : r ∈ declBlock E AST (some (cappedIndex entries)) Limit Path info := by
      unfold selfRecords at hr
      split at hr
      · simp at hr
      · split at hr
        · simp at hr
        · exact hr
    simp only [declBlock, List.mem_append] at hblock
    rcases hblock with (hm | hb) | hd
    · unfold markerBlock at hm
      split at hm
      · simp only [List.mem_singleton] at hm
        subst hm
        simp [markerLens] at hcmd
      · simp at hm
    · unfold baseBlock at hb
      split at hb
      · simp only [List.mem_singleton] at hb
        subst hb
        simp only [hierarchyLens, Option.some.injEq] at hcmd
        subst hcmd
        exact absurd htitle (base_title_ne_derived_title _ _)
      · simp at hb
    · unfold derivedBlock at hd
      split at hd
      · rename_i hne
        simp only [List.mem_singleton] at hd
        subst hd
        simp only [hierarchyLens, Option.some.injEq] at hcmd
        subst hcmd
        have hq : derivedPredicate info.kind = some R := by
          cases hdp : derivedPredicate info.kind with
          | none =>
            exfalso
            apply hne
            rw [subLocations_eq, hdp]
            rfl
          | some R2 =>
            rcases hkind with ⟨sp, fin, par, hk, hR⟩ | ⟨sp, ov, hk, hR⟩
            · rw [hk] at hdp
              cases fin <;> simp [derivedPredicate] at hdp
              rw [hR, ← hdp]
            · rw [hk] at hdp
              simp [derivedPredicate] at hdp
              rw [hR, ← hdp]
        refine ⟨_, rfl, hlen hq, ?_, ?_⟩
        · simp only [hlen hq]
        · simp only [hlen hq]; exact hmore
      · simp at hd
  · intro vc hnew hc hq
    refine ⟨_, rfl, ?_, ?_⟩
    · rw [← subLocations_cappedIndex E Limit Path entries info ID R hID hq]
      exact hlen hq
    · rw [visitSelf_emit E AST (some (cappedIndex entries)) Limit Path st info vc hnew hc]
      have hne : (subLocations E (some (cappedIndex entries)) Limit Path info).length ≠ 0 := by
        rw [hlen hq]; exact hlimit
      simp only [declBlock, derivedBlock, hne, ne_eq, not_false_eq_true, if_true,
        hierarchyLens, tokenRange, hlen hq]
      rw [subLocations_cappedIndex E Limit Path entries info ID R hID hq]
      simp [hlimit]

/-- `Base` with the ten indexed subclasses and limit 3: the "derived"
command that the visit appends is titled "3 derived" and holds three
locations, and the whole walk of the unit holding `Base` returns the marker
and that command. -/
theorem derived_count_equals_limit_witness :
    (∃ arg : CodeLensArgument,
      (Command.mk "clangd.action.showReferences" "3 derived"
        (some ⟨"/main.cpp", ⟨0, 7⟩,
          [⟨"/derived.cpp", ⟨⟨0, 7⟩, ⟨0, 8⟩⟩⟩, ⟨"/derived.cpp", ⟨⟨1, 7⟩, ⟨1, 8⟩⟩⟩,
            ⟨"/derived.cpp", ⟨⟨2, 7⟩, ⟨2, 8⟩⟩⟩]⟩)).argument = some arg ∧
      arg.locations.length = 3 ∧ "3 derived" = toString 3 ++ " derived" ∧
      arg.locations.length < (relatedEntities Sample.tenSubclasses [1] .BaseOf).length) ∧
    getDocumentCodeLens Sample.E Sample.BaseAST (some (cappedIndex Sample.tenSubclasses)) 3
        "/main.cpp" =
      .ok [{ range := ⟨⟨0, 7⟩, ⟨0, 8⟩⟩, command := none, data := some { uri := "/main.cpp" } },
        { range := ⟨⟨0, 7⟩, ⟨0, 8⟩⟩
          command := some
            { command := "clangd.action.showReferences"
              title := "3 derived"
              argument := some
                { uri := "/main.cpp", position := ⟨0, 7⟩
                  locations := [⟨"/derived.cpp", ⟨⟨0, 7⟩, ⟨0, 8⟩⟩⟩,
                    ⟨"/derived.cpp", ⟨⟨1, 7⟩, ⟨1, 8⟩⟩⟩, ⟨"/derived.cpp", ⟨⟨2, 7⟩, ⟨2, 8⟩⟩⟩] } }
          data := none }] :=
  ⟨(derived_count_equals_limit Sample.E Sample.BaseAST Sample.tenSubclasses 3 "/main.cpp"
      { Visited := [], Results := [] } Sample.Base.info 1 .BaseOf (by decide)
      (Or.inl ⟨none, false, [], rfl, rfl⟩) rfl (by decide) (by decide)).1
      { range := ⟨⟨0, 7⟩, ⟨0, 8⟩⟩
        command := some (Command.mk "clangd.action.showReferences" "3 derived"
          (some ⟨"/main.cpp", ⟨0, 7⟩,
            [⟨"/derived.cpp", ⟨⟨0, 7⟩, ⟨0, 8⟩⟩⟩, ⟨"/derived.cpp", ⟨⟨1, 7⟩, ⟨1, 8⟩⟩⟩,
              ⟨"/derived.cpp", ⟨⟨2, 7⟩, ⟨2, 8⟩⟩⟩]⟩))
        data := none }
      _ 3 (by decide) rfl rfl,
    rfl⟩

/-! ## The template tests -/

/-- C11 (as stated, refuted): the ordinary function `g` is named, not
implicit, not at a macro location, inside the main file and not
template-related, yet the walk emits its marker and does not visit its
parameter, although walking its scope would add a marker; and the ordinary
namespace `N` contributes the markers of its children but none of its
own. -/
theorem ordinary_function_children_not_visited :
    (Sample.g.info.kind.isTemplateRelated = false ∧
      rejectDecl Sample.GAST.SM Sample.g.info = false ∧
      getDocumentCodeLens Sample.E Sample.GAST (some Sample.Index) 0 "/main.cpp" =
        .ok [markerLens "/main.cpp" ⟨⟨0, 110⟩, ⟨0, 111⟩⟩] ∧
      (visitScope Sample.E Sample.GAST (some Sample.Index) 4294967295 "/main.cpp"
        { Visited := [110], Results := [markerLens "/main.cpp" ⟨⟨0, 110⟩, ⟨0, 111⟩⟩] }
        Sample.g.decls).Results =
        [markerLens "/main.cpp" ⟨⟨0, 110⟩, ⟨0, 111⟩⟩,
          markerLens "/main.cpp" ⟨⟨0, 115⟩, ⟨0, 116⟩⟩]) ∧
    (Sample.N.info.kind.isTemplateRelated = false ∧
      rejectDecl Sample.AST.SM Sample.N.info = false ∧
      (visitDecl Sample.E Sample.AST (some Sample.Index) 4294967295 "/main.cpp"
        { Visited := [], Results := [] } Sample.N).Results =
        [markerLens "/main.cpp" ⟨⟨0, 54⟩, ⟨0, 55⟩⟩,
          markerLens "/main.cpp" ⟨⟨0, 66⟩, ⟨0, 67⟩⟩]) := by
  refine ⟨⟨by decide, by decide, rfl, by decide⟩, by decide, by decide, by decide⟩

/-- C11 (amended): ordinary declarations. A declaration that is not
template-related, passes the rejection tests and has an unvisited key passes
the template tests with `VisitChildren` true unless it is a function or
method; the walk inserts its key, appends its block, whose marker is present
unless the declaration is a namespace or namespace alias, and then visits its
children in source order, except for a function or method, whose children
are not visited. -/
theorem ordinary_declaration_visit (E : Externals) (AST : ParsedAST)
    (Index : Option SymbolIndex) (Limit : Nat) (Path : String) (st : WalkState)
    (info : DeclInfo) (templated : Option Decl) (decls : Option (List Decl))
    (hord : info.kind.isTemplateRelated = false) (hreach : rejectDecl AST.SM info = false)
    (hnew : info.loc ∉ st.Visited) :
    classify info.kind = some (!info.kind.isFunctionDecl) ∧
    markerBlock AST Path info =
      (if info.kind.isNamespaceOrAlias then []
        else [markerLens Path (tokenRange AST.SM info.loc)]) ∧
    visitDecl E AST Index Limit Path st (.mk info templated decls) =
      (if info.kind.isFunctionDecl then
        { Visited := info.loc :: st.Visited
          Results := st.Results ++ declBlock E AST Index Limit Path info }
      else
        visitScope E AST Index Limit Path
          { Visited := info.loc :: st.Visited
            Results := st.Results ++ declBlock E AST Index Limit Path info } decls) := by
  have hnt : info.kind ≠ .TemplateDecl := by
    intro h; simp [h, DeclKind.isTemplateRelated] at hord
  have hc : classify info.kind = some (!info.kind.isFunctionDecl) := by
    cases hk : info.kind with
    | FunctionDecl Info CXXMD =>
      cases Info with
      | none => simp [classify, DeclKind.isFunctionDecl]
      | some i => simp [hk, DeclKind.isTemplateRelated] at hord
    | CXXRecordDecl TemplSpec fin parents =>
      cases TemplSpec with
      | none => simp [classify, DeclKind.isFunctionDecl]
      | some i => simp [hk, DeclKind.isTemplateRelated] at hord
    | _ => simp [classify, DeclKind.isFunctionDecl]
  refine ⟨hc, ?_, ?_⟩
  · unfold markerBlock
    cases info.kind.isNamespaceOrAlias <;> simp
  · rw [visitDecl_accept E AST Index Limit Path st info templated decls _ hnt hreach hc]
    cases info.kind.isFunctionDecl <;> simp [hnew]

/-- The class `Vec` pattern of the sample unit, visited from the empty
state: its marker, then the walk of its field. -/
theorem ordinary_declaration_visit_witness :
    visitDecl Sample.E Sample.AST (some Sample.Index) 10 "/main.cpp"
        { Visited := [], Results := [] } Sample.VecPattern =
      visitScope Sample.E Sample.AST (some Sample.Index) 10 "/main.cpp"
        { Visited := [90], Results := [markerLens "/main.cpp" ⟨⟨0, 90⟩, ⟨0, 91⟩⟩] }
        (some [Sample.x]) :=
  (ordinary_declaration_visit Sample.E Sample.AST (some Sample.Index) 10 "/main.cpp"
    { Visited := [], Results := [] } Sample.VecPattern.info none (some [Sample.x])
    (by decide) (by decide) (by decide)).2.2

/-- C12: implicit function specializations are skipped entirely. A function
or method that belongs to a template specialization which is not an explicit
instantiation or specialization appends no record in any state (no marker,
no "base" command, no "derived" command), and its children are not visited:
the visit gives the same state as for the declaration without children. -/
theorem implicit_function_specialization_skipped (E : Externals) (AST : ParsedAST)
    (Index : Option SymbolIndex) (Limit : Nat) (Path : String) (st : WalkState)
    (info : DeclInfo) (templated : Option Decl) (decls : Option (List Decl))
    (Info : TemplateSpecializationKind) (CXXMD : Option CXXMethodData)
    (hkind : info.kind = .FunctionDecl (some Info) CXXMD)
    (himplicit : Info.isExplicitInstantiationOrSpecialization = false) :
    (visitDecl E AST Index Limit Path st (.mk info templated decls)).Results = st.Results ∧
    visitDecl E AST Index Limit Path st (.mk info templated decls) =
      visitDecl E AST Index Limit Path st (.mk info templated none) ∧
    (∀ r ∈ (visitDecl E AST Index Limit Path st (.mk info templated decls)).Results,
      r ∈ st.Results) := by
  have hnt : info.kind ≠ .TemplateDecl := by simp [hkind]
  have hc : classify info.kind = none := by simp [hkind, classify, himplicit]
  have hform : ∀ ds, visitDecl E AST Index Limit Path st (.mk info templated ds) =
      if rejectDecl AST.SM info then st
      else if info.loc ∈ st.Visited then st
      else { Visited := info.loc :: st.Visited, Results := st.Results } := by
    intro ds
    rw [visitDecl_eq_working, working_of_not_template info templated ds hnt, visitWorking_eq]
    simp [Decl.info, hc]
  have hres : (visitDecl E AST Index Limit Path st (.mk info templated decls)).Results =
      st.Results := by
    rw [hform]
    split
    · rfl
    · split <;> rfl
  refine ⟨hres, by rw [hform, hform], ?_⟩
  intro r hr
  rw [hres] at hr
  exact hr

/-- The implicit instantiation `gImplicit`, visited after `Base`: the
results are unchanged. -/
theorem implicit_function_specialization_skipped_witness :
    (visitDecl Sample.E Sample.AST (some Sample.Index) 10 "/main.cpp"
      { Visited := [7], Results := [markerLens "/main.cpp" ⟨⟨0, 7⟩, ⟨0, 8⟩⟩] }
      Sample.gImplicit).Results = [markerLens "/main.cpp" ⟨⟨0, 7⟩, ⟨0, 8⟩⟩] :=
  (implicit_function_specialization_skipped Sample.E Sample.AST (some Sample.Index) 10
    "/main.cpp" { Visited := [7], Results := [markerLens "/main.cpp" ⟨⟨0, 7⟩, ⟨0, 8⟩⟩] }
    Sample.gImplicit.info none (some [Sample.a]) .ImplicitInstantiation none rfl rfl).1

/-- C13: explicit function specializations. A function or method that
belongs to an explicit instantiation or explicit specialization, passes the
rejection tests and has an unvisited key has its key inserted and its block
appended, which starts with the marker of the declaration itself (the
record whose range is the token at its location, with no command and with
placeholder data for `Path`), and its children are not visited: the visit gives the same state as for the
declaration without children. -/
theorem explicit_function_specialization_marker_only (E : Externals) (AST : ParsedAST)
    (Index : Option SymbolIndex) (Limit : Nat) (Path : String) (st : WalkState)
    (info : DeclInfo) (templated : Option Decl) (decls : Option (List Decl))
    (Info : TemplateSpecializationKind) (CXXMD : Option CXXMethodData)
    (hkind : info.kind = .FunctionDecl (some Info) CXXMD)
    (hexplicit : Info.isExplicitInstantiationOrSpecialization = true)
    (hreach : rejectDecl AST.SM info = false) (hnew : info.loc ∉ st.Visited) :
    visitDecl E AST Index Limit Path st (.mk info templated decls) =
      { Visited := info.loc :: st.Visited
        Results := st.Results ++
          ({ range := ⟨AST.SM.sourceLocToPosition info.loc,
              AST.SM.sourceLocToPosition (AST.SM.getLocForEndOfToken info.loc)⟩
             command := none
             data := some { uri := Path } } ::
            (baseBlock E AST Path info ++ derivedBlock E AST Index Limit Path info)) } ∧
    visitDecl E AST Index Limit Path st (.mk info templated decls) =
      visitDecl E AST Index Limit Path st (.mk info templated none) := by
  have hnt : info.kind ≠ .TemplateDecl := by simp [hkind]
  have hc : classify info.kind = some false := by simp [hkind, classify, hexplicit]
  have hb := declBlock_of_not_namespace E AST Index Limit Path info
    (by simp [hkind, DeclKind.isNamespaceOrAlias])
  refine ⟨?_, ?_⟩
  · rw [visitDecl_accept E AST Index Limit Path st info templated decls false hnt hreach hc]
    simp [hnew, hb, markerLens, tokenRange]
  · rw [visitDecl_accept E AST Index Limit Path st info templated decls false hnt hreach hc,
      visitDecl_accept E AST Index Limit Path st info templated none false hnt hreach hc]
    simp

/-- The explicit specialization `gExplicit`, visited from the empty state:
its marker, and nothing for its parameter. -/
theorem explicit_function_specialization_marker_only_witness :
    visitDecl Sample.E Sample.AST (some Sample.Index) 10 "/main.cpp"
        { Visited := [], Results := [] } Sample.gExplicit =
      { Visited := [130]
        Results := [{ range := ⟨⟨0, 130⟩, ⟨0, 131⟩⟩, command := none
                      data := some { uri := "/main.cpp" } }] } := by
  have h := (explicit_function_specialization_marker_only Sample.E Sample.AST
    (some Sample.Index) 10 "/main.cpp" { Visited := [], Results := [] } Sample.gExplicit.info
    none (some [Sample.a]) .ExplicitSpecialization none rfl rfl (by decide) (by decide)).1
  rw [show Sample.gExplicit = Decl.mk Sample.gExplicit.info none (some [Sample.a]) from rfl, h]
  decide

/-- C14: explicit aggregate specializations. A class template specialization
that is an explicit specialization, passes the rejection tests and has an
unvisited key has its key inserted and its block appended, which starts with
the marker of the declaration (the record whose range is the token at its
location, with no command and with placeholder data for `Path`), and then
its children are visited in source order by the children loop. -/
theorem explicit_class_specialization_visits_children (E : Externals) (AST : ParsedAST)
    (Index : Option SymbolIndex) (Limit : Nat) (Path : String) (st : WalkState)
    (info : DeclInfo) (templated : Option Decl) (decls : Option (List Decl))
    (isEffectivelyFinal : Bool) (typeParents : List DeclPtr)
    (hkind : info.kind =
      .CXXRecordDecl (some .ExplicitSpecialization) isEffectivelyFinal typeParents)
    (hreach : rejectDecl AST.SM info = false) (hnew : info.loc ∉ st.Visited) :
    visitDecl E AST Index Limit Path st (.mk info templated decls) =
      visitScope E AST Index Limit Path
        { Visited := info.loc :: st.Visited
          Results := st.Results ++
            ({ range := ⟨AST.SM.sourceLocToPosition info.loc,
                AST.SM.sourceLocToPosition (AST.SM.getLocForEndOfToken info.loc)⟩
               command := none
               data := some { uri := Path } } ::
              (baseBlock E AST Path info ++ derivedBlock E AST Index Limit Path info)) } decls ∧
    (∀ (C : Decl) (rest : List Decl) (s : WalkState),
      visitScope E AST Index Limit Path s (some (C :: rest)) =
        visitScope E AST Index Limit Path (visitDecl E AST Index Limit Path s C) (some rest)) := by
  have hnt : info.kind ≠ .TemplateDecl := by simp [hkind]
  have hc : classify info.kind = some true := by
    simp [hkind, classify, TemplateSpecializationKind.isExplicitInstantiationOrSpecialization,
      TemplateSpecializationKind.isExplicitSpecialization]
  have hb := declBlock_of_not_namespace E AST Index Limit Path info
    (by simp [hkind, DeclKind.isNamespaceOrAlias])
  refine ⟨?_, ?_⟩
  · rw [visitDecl_accept E AST Index Limit Path st info templated decls true hnt hreach hc]
    simp [hnew, hb, markerLens, tokenRange]
  · intro C rest s
    simp [visitScope, visitDecls_cons]

/-- The explicit specialization `VecBool`, visited from the empty state: its
marker, then the marker of its field. -/
theorem explicit_class_specialization_visits_children_witness :
    visitDecl Sample.E Sample.AST (some Sample.Index) 10 "/main.cpp"
        { Visited := [], Results := [] } Sample.VecBool =
      { Visited := [95, 140]
        Results := [{ range := ⟨⟨0, 140⟩, ⟨0, 141⟩⟩, command := none
                      data := some { uri := "/main.cpp" } },
          { range := ⟨⟨0, 95⟩, ⟨0, 96⟩⟩, command := none
            data := some { uri := "/main.cpp" } }] } := by
  have h := (explicit_class_specialization_visits_children Sample.E Sample.AST
    (some Sample.Index) 10 "/main.cpp" { Visited := [], Results := [] } Sample.VecBool.info
    none (some [Sample.x]) false [] rfl (by decide) (by decide)).1
  rw [show Sample.VecBool = Decl.mk Sample.VecBool.info none (some [Sample.x]) from rfl, h]
  decide

/-- C15: template wrapper transparency. For a template declaration T that
passes the rejection tests and wraps a pattern P, everything after the
rejection tests is decided by P alone: the key tested and inserted is the
location of P, the template tests and the block (marker and hierarchy
commands, anchored at the location of P) are those of P, and the children
visited are those of P; so when P itself is not a template and passes the
rejection tests, visiting T is visiting P. A template declaration without
pattern is processed as itself: its own key, its own marker, its own
children. -/
theorem template_wrapper_transparent (E : Externals) (AST : ParsedAST)
    (Index : Option SymbolIndex) (Limit : Nat) (Path : String) (st : WalkState)
    (info : DeclInfo) (decls : Option (List Decl)) (hkind : info.kind = .TemplateDecl)
    (hreach : rejectDecl AST.SM info = false) :
    (∀ P : Decl, visitDecl E AST Index Limit Path st (.mk info (some P) decls) =
      if P.info.loc ∈ st.Visited then st
      else
        match classify P.info.kind with
        | none => { Visited := P.info.loc :: st.Visited, Results := st.Results }
        | some VisitChildren =>
          if VisitChildren then
            visitScope E AST Index Limit Path
              { Visited := P.info.loc :: st.Visited
                Results := st.Results ++ declBlock E AST Index Limit Path P.info } P.decls
          else
            { Visited := P.info.loc :: st.Visited
              Results := st.Results ++ declBlock E AST Index Limit Path P.info }) ∧
    (∀ P : Decl, P.info.kind ≠ .TemplateDecl → rejectDecl AST.SM P.info = false →
      visitDecl E AST Index Limit Path st (.mk info (some P) decls) =
        visitDecl E AST Index Limit Path st P) ∧
    visitDecl E AST Index Limit Path st (.mk info none decls) =
      (if info.loc ∈ st.Visited then st
      else
        visitScope E AST Index Limit Path
          { Visited := info.loc :: st.Visited
            Results := st.Results ++ [markerLens Path (tokenRange AST.SM info.loc)] } decls) := by
  have hwP : ∀ P : Decl, (Decl.mk info (some P) decls).working = P := by
    intro P; simp [Decl.working, Decl.info, Decl.templated, hkind]
  have hw0 : (Decl.mk info none decls).working = Decl.mk info none decls := by
    simp [Decl.working, Decl.templated]
  refine ⟨?_, ?_, ?_⟩
  · intro P
    rw [visitDecl_eq_working, hwP, ← visitWorking_eq]
    simp [Decl.info, hreach]
  · intro P hP hrP
    obtain ⟨pinfo, pt, pdecls⟩ := P
    rw [visitDecl_eq_working, hwP, visitDecl_eq_working,
      working_of_not_template pinfo pt pdecls hP]
    simp only [Decl.info] at hrP ⊢
    simp [hreach, hrP]
  · rw [visitDecl_eq_working, hw0, visitWorking_eq]
    have hc : classify info.kind = some true := by simp [hkind, classify]
    have hb : declBlock E AST Index Limit Path info =
        [markerLens Path (tokenRange AST.SM info.loc)] := by
      simp [declBlock, markerBlock, baseBlock, derivedBlock, superLocations, subLocations,
        hkind, DeclKind.isNamespaceOrAlias]
    simp [Decl.info, Decl.decls, hreach, hc, hb]

/-- The template `Vec` of the sample unit is visited as its pattern. -/
theorem template_wrapper_transparent_witness :
    visitDecl Sample.E Sample.AST (some Sample.Index) 10 "/main.cpp"
        { Visited := [], Results := [] } Sample.Vec =
      visitDecl Sample.E Sample.AST (some Sample.Index) 10 "/main.cpp"
        { Visited := [], Results := [] } Sample.VecPattern :=
  (template_wrapper_transparent Sample.E Sample.AST (some Sample.Index) 10 "/main.cpp"
    { Visited := [], Results := [] } Sample.Vec.info none rfl (by decide)).2.1
    Sample.VecPattern (by decide) (by decide)

/-! ## Rejection -/

/-- C16: rejection. For a declaration that is outside the main file,
implicit, not a named declaration, or located in a macro expansion,
`visitDecl` returns the state it was given: no record is appended, no child
is visited and `Visited` is unchanged. -/
theorem rejected_declaration_ignored (E : Externals) (AST : ParsedAST)
    (Index : Option SymbolIndex) (Limit : Nat) (Path : String) (st : WalkState)
    (info : DeclInfo) (templated : Option Decl) (decls : Option (List Decl))
    (hrej : AST.SM.isInsideMainFile info.loc = false ∨ info.isImplicit = true ∨
      info.kind.isNamedDecl = false ∨ AST.SM.isMacroID info.loc = true) :
    visitDecl E AST Index Limit Path st (.mk info templated decls) = st := by
  have hr : rejectDecl AST.SM info = true := by
    unfold rejectDecl
    rcases hrej with h | h | h | h <;> simp [h]
  rw [visitDecl_eq_working]
  simp [Decl.info, hr]

/-- The declaration `Included`, outside the main file, changes nothing. -/
theorem rejected_declaration_ignored_witness :
    visitDecl Sample.E Sample.AST (some Sample.Index) 10 "/main.cpp"
        { Visited := [7], Results := [markerLens "/main.cpp" ⟨⟨0, 7⟩, ⟨0, 8⟩⟩] }
        Sample.Included =
      { Visited := [7], Results := [markerLens "/main.cpp" ⟨⟨0, 7⟩, ⟨0, 8⟩⟩] } :=
  rejected_declaration_ignored Sample.E Sample.AST (some Sample.Index) 10 "/main.cpp"
    { Visited := [7], Results := [markerLens "/main.cpp" ⟨⟨0, 7⟩, ⟨0, 8⟩⟩] }
    Sample.Included.info none (some [Sample.x]) (Or.inl (by decide))

/-! ## Hierarchy commands -/

/-- C17: the index is consulted in the "derived" direction only for open
subjects. For an effectively final class and for a method that is not
virtual the "derived" block is empty whatever the index and the limit, and
the step of the walk on such a declaration is the same for every index and
limit; a method that is not virtual and overrides nothing has a block
consisting of its marker only. -/
theorem derived_only_for_open_subjects (E : Externals) (AST : ParsedAST)
    (Index : Option SymbolIndex) (Limit : Nat) (Path : String) (loc : SourceLocation)
    (isImplicit : Bool) (symbolID : Option SymbolID)
    (Spec : Option TemplateSpecializationKind) (typeParents overridden : List DeclPtr) :
    derivedBlock E AST Index Limit Path
        ⟨loc, isImplicit, symbolID, .CXXRecordDecl Spec true typeParents⟩ = [] ∧
    derivedBlock E AST Index Limit Path
        ⟨loc, isImplicit, symbolID, .FunctionDecl Spec (some ⟨false, overridden⟩)⟩ = [] ∧
    declBlock E AST Index Limit Path
        ⟨loc, isImplicit, symbolID, .FunctionDecl Spec (some ⟨false, []⟩)⟩ =
      [markerLens Path (tokenRange AST.SM loc)] ∧
    (∀ st : WalkState,
      (visitSelf E AST Index Limit Path
          ⟨loc, isImplicit, symbolID, .FunctionDecl Spec (some ⟨false, []⟩)⟩ st).1.Results =
        st.Results ∨
      (visitSelf E AST Index Limit Path
          ⟨loc, isImplicit, symbolID, .FunctionDecl Spec (some ⟨false, []⟩)⟩ st).1.Results =
        st.Results ++ [markerLens Path (tokenRange AST.SM loc)]) ∧
    (∀ (Index2 : Option SymbolIndex) (Limit2 : Nat) (st : WalkState),
      visitSelf E AST Index Limit Path
          ⟨loc, isImplicit, symbolID, .CXXRecordDecl Spec true typeParents⟩ st =
        visitSelf E AST Index2 Limit2 Path
          ⟨loc, isImplicit, symbolID, .CXXRecordDecl Spec true typeParents⟩ st ∧
      visitSelf E AST Index Limit Path
          ⟨loc, isImplicit, symbolID, .FunctionDecl Spec (some ⟨false, overridden⟩)⟩ st =
        visitSelf E AST Index2 Limit2 Path
          ⟨loc, isImplicit, symbolID, .FunctionDecl Spec (some ⟨false, overridden⟩)⟩ st) := by
  have hblock : declBlock E AST Index Limit Path
      ⟨loc, isImplicit, symbolID, .FunctionDecl Spec (some ⟨false, []⟩)⟩ =
      [markerLens Path (tokenRange AST.SM loc)] := by
    simp [declBlock, markerBlock, baseBlock, derivedBlock, superLocations, subLocations,
      DeclKind.isNamespaceOrAlias]
  refine ⟨?_, ?_, hblock, ?_, ?_⟩
  · exact derivedBlock_of_no_query E AST Index Limit Path _ (by simp [derivedPredicate])
  · exact derivedBlock_of_no_query E AST Index Limit Path _ (by simp [derivedPredicate])
  · intro st
    rw [visitSelf_spec]
    unfold selfRecords
    split
    · left; simp
    · split
      · left; simp
      · right; rw [hblock]
  · intro Index2 Limit2 st
    exact ⟨visitSelf_of_no_query E AST Index Limit Path Index2 Limit2 _ st
        (by simp [derivedPredicate]),
      visitSelf_of_no_query E AST Index Limit Path Index2 Limit2 _ st
        (by simp [derivedPredicate])⟩

/-- C18: unresolvable locations are dropped, never fatal. For a class or
method that the walk accepts, the locations of the "base" command are the
results of `declToLocation` on the canonical declarations of the immediate
parents or overridden methods, in iteration order, those without result
being omitted; the command is titled with the number of kept locations and
is absent when none is kept. The marker and the "derived" block do not
depend on how files resolve, and the walk goes on: the block is appended
and the children are visited as `VisitChildren` says. -/
theorem base_locations_drop_unresolvable (E : Externals) (AST : ParsedAST)
    (Index : Option SymbolIndex) (Limit : Nat) (Path : String) (st : WalkState)
    (info : DeclInfo) (templated : Option Decl) (decls : Option (List Decl))
    (VisitChildren : Bool)
    (hkind : (∃ Spec fin parents, info.kind = .CXXRecordDecl Spec fin parents) ∨
      (∃ Spec CXXMD, info.kind = .FunctionDecl Spec (some CXXMD)))
    (hreach : rejectDecl AST.SM info = false) (hnew : info.loc ∉ st.Visited)
    (hc : classify info.kind = some VisitChildren) :
    ∃ kept : List Location,
      kept = info.kind.superDecls.filterMap
        (fun P => declToLocation E AST.SM (E.getCanonicalDecl P)) ∧
      kept.length ≤ info.kind.superDecls.length ∧
      baseBlock E AST Path info =
        (if kept = [] then []
        else
          [{ range := tokenRange AST.SM info.loc
             command := some
               { command := E.SHOW_REFERENCES
                 title := toString kept.length ++ " base"
                 argument := some
                   { uri := Path, position := (tokenRange AST.SM info.loc).start
                     locations := kept } }
             data := none }]) ∧
      (∀ (fe : SourceLocation → Option FileEntryRef) (mf : Option FileEntryRef)
          (cp : FileEntryRef → Option String),
        markerBlock
            { AST with SM := { AST.SM with getFileEntryRefForLoc := fe
                                           getMainFileEntryRef := mf
                                           getCanonicalPath := cp } } Path info =
          markerBlock AST Path info ∧
        derivedBlock E
            { AST with SM := { AST.SM with getFileEntryRefForLoc := fe
                                           getMainFileEntryRef := mf
                                           getCanonicalPath := cp } } Index Limit Path info =
          derivedBlock E AST Index Limit Path info) ∧
      visitDecl E AST Index Limit Path st (.mk info templated decls) =
        (if VisitChildren then
          visitScope E AST Index Limit Path
            { Visited := info.loc :: st.Visited
              Results := st.Results ++ (markerBlock AST Path info ++ baseBlock E AST Path info ++
                derivedBlock E AST Index Limit Path info) } decls
        else
          { Visited := info.loc :: st.Visited
            Results := st.Results ++ (markerBlock AST Path info ++ baseBlock E AST Path info ++
              derivedBlock E AST Index Limit Path info) }) := by
  have hnt : info.kind ≠ .TemplateDecl := by
    rcases hkind with ⟨a, b, c, h⟩ | ⟨a, b, h⟩ <;> simp [h]
  refine ⟨_, rfl, List.length_filterMap_le _ _, ?_, ?_, ?_⟩
  · unfold baseBlock
    rw [superLocations_eq]
    by_cases hk : info.kind.superDecls.filterMap
        (fun P => declToLocation E AST.SM (E.getCanonicalDecl P)) = []
    · simp [hk]
    · have hlen : (info.kind.superDecls.filterMap
          (fun P => declToLocation E AST.SM (E.getCanonicalDecl P))).length ≠ 0 := by
        intro h0; exact hk (List.length_eq_zero.1 h0)
      simp [hk, hierarchyLens]
  · intro fe mf cp
    exact ⟨rfl, rfl⟩
  · rw [visitDecl_accept E AST Index Limit Path st info templated decls VisitChildren hnt
      hreach hc]
    simp [hnew, declBlock]

/-- The class `Orphan`, whose one supertype has no resolvable file: no
location is kept, no "base" command is emitted, and the walk appends the
marker. -/
theorem base_locations_drop_unresolvable_witness :
    ∃ kept : List Location,
      kept = [] ∧
      baseBlock Sample.E Sample.OrphanAST "/main.cpp" Sample.Orphan.info = [] ∧
      visitDecl Sample.E Sample.OrphanAST (some Sample.Index) 10 "/main.cpp"
          { Visited := [], Results := [] } Sample.Orphan =
        { Visited := [30], Results := [markerLens "/main.cpp" ⟨⟨0, 30⟩, ⟨0, 31⟩⟩] } := by
  obtain ⟨kept, hk, -, hb, -, hv⟩ :=
    base_locations_drop_unresolvable Sample.E Sample.OrphanAST (some Sample.Index) 10
      "/main.cpp" { Visited := [], Results := [] } Sample.Orphan.info none (some []) true
      (Or.inl ⟨none, false, [2000], rfl⟩) (by decide) (by decide) rfl
  have hkept : kept = [] := by rw [hk]; decide
  refine ⟨kept, hkept, ?_, ?_⟩
  · rw [hb, hkept]; rfl
  · rw [show Sample.Orphan = Decl.mk Sample.Orphan.info none (some []) from rfl, hv]
    decide

/-! ## De-duplication and the limit -/

/-- C19 (as stated, refuted): in the unit `NFirstAST` namespace `N` and the
variable `Shadow` have the same key 45 and both pass the rejection tests;
`N` is encountered first and is not annotated with a marker, and `Shadow`
is then rejected, so the output holds the markers of the children of `N`
and no marker at location 45. -/
theorem first_encountered_namespace_gets_no_marker :
    rejectDecl Sample.NFirstAST.SM Sample.N.info = false ∧
    rejectDecl Sample.NFirstAST.SM Sample.Shadow.info = false ∧
    Sample.N.working.info.loc = 45 ∧ Sample.Shadow.working.info.loc = 45 ∧
    getDocumentCodeLens Sample.E Sample.NFirstAST (some Sample.Index) 0 "/main.cpp" =
      .ok [markerLens "/main.cpp" ⟨⟨0, 54⟩, ⟨0, 55⟩⟩,
        markerLens "/main.cpp" ⟨⟨0, 66⟩, ⟨0, 67⟩⟩] := by
  refine ⟨by decide, by decide, by decide, by decide, rfl⟩

/-- C19 (amended): first-encountered wins. Let a declaration pass the
rejection tests with a working key (its key after template-pattern
substitution) that is not yet visited. Its visit records the key; when it
passes the template tests and is not a namespace or namespace alias, the
records it appends start with its marker. Any declaration with the same
working key that is visited in a later state (a state whose visited set
holds the key, in particular after any further declarations) is rejected:
the state is returned unchanged, so it contributes no record, its subtree
is not processed and `Visited` is unchanged. -/
theorem first_encountered_wins (E : Externals) (AST : ParsedAST)
    (Index : Option SymbolIndex) (Limit : Nat) (Path : String) (st : WalkState)
    (D1 D2 : Decl) (hreach : rejectDecl AST.SM D1.info = false)
    (hnew : D1.working.info.loc ∉ st.Visited)
    (hkey : D2.working.info.loc = D1.working.info.loc) :
    D1.working.info.loc ∈ (visitDecl E AST Index Limit Path st D1).Visited ∧
    (∀ VisitChildren : Bool, classify D1.working.info.kind = some VisitChildren →
      D1.working.info.kind.isNamespaceOrAlias = false →
      ∃ rest : List CodeLens,
        (visitDecl E AST Index Limit Path st D1).Results =
          st.Results ++ markerLens Path (tokenRange AST.SM D1.working.info.loc) :: rest) ∧
    (∀ later : WalkState, D1.working.info.loc ∈ later.Visited →
      visitDecl E AST Index Limit Path later D2 = later) ∧
    (∀ between : List Decl,
      visitDecl E AST Index Limit Path
          (visitDecls E AST Index Limit Path (visitDecl E AST Index Limit Path st D1) between)
          D2 =
        visitDecls E AST Index Limit Path (visitDecl E AST Index Limit Path st D1) between) := by
  have hlater : ∀ later : WalkState, D1.working.info.loc ∈ later.Visited →
      visitDecl E AST Index Limit Path later D2 = later := by
    intro later h
    exact visitDecl_of_visited E AST Index Limit Path later D2 (by rw [hkey]; exact h)
  have hin : D1.working.info.loc ∈ (visitDecl E AST Index Limit Path st D1).Visited := by
    rw [visitDecl_eq_working, visitWorking_eq]
    simp only [hreach, hnew, if_false, Bool.false_eq_true]
    cases classify D1.working.info.kind with
    | none => simp
    | some vc =>
      cases vc with
      | false => simp
      | true =>
        simp only [if_true]
        exact visitScope_visited_mono E AST Index Limit Path _ _ _ (List.mem_cons_self _ _)
  refine ⟨hin, ?_, hlater, ?_⟩
  · intro vc hc hns
    rw [visitDecl_eq_working, visitWorking_eq]
    simp only [hreach, hnew, if_false, Bool.false_eq_true, hc]
    rw [declBlock_of_not_namespace E AST Index Limit Path _ hns]
    cases vc with
    | false =>
      exact ⟨baseBlock E AST Path D1.working.info ++
        derivedBlock E AST Index Limit Path D1.working.info, by simp⟩
    | true =>
      obtain ⟨out, hout⟩ := visitScope_results_prefix E AST Index Limit Path D1.working.decls
        { Visited := D1.working.info.loc :: st.Visited
          Results := st.Results ++ markerLens Path (tokenRange AST.SM D1.working.info.loc) ::
            (baseBlock E AST Path D1.working.info ++
              derivedBlock E AST Index Limit Path D1.working.info) }
      refine ⟨(baseBlock E AST Path D1.working.info ++
        derivedBlock E AST Index Limit Path D1.working.info) ++ out, ?_⟩
      simp only [if_true]
      rw [hout]
      simp
  · intro between
    exact hlater _ (visitDecls_visited_mono E AST Index Limit Path between _ _ hin)

/-- In the sample unit the template `Vec` is encountered first with key 90;
the explicit instantiation `VecInt`, which shares the key, is rejected after
it. -/
theorem first_encountered_wins_witness :
    visitDecl Sample.E Sample.AST (some Sample.Index) 10 "/main.cpp"
        (visitDecls Sample.E Sample.AST (some Sample.Index) 10 "/main.cpp"
          (visitDecl Sample.E Sample.AST (some Sample.Index) 10 "/main.cpp"
            { Visited := [], Results := [] } Sample.Vec) [])
        Sample.VecInt =
      visitDecls Sample.E Sample.AST (some Sample.Index) 10 "/main.cpp"
        (visitDecl Sample.E Sample.AST (some Sample.Index) 10 "/main.cpp"
          { Visited := [], Results := [] } Sample.Vec) [] :=
  (first_encountered_wins Sample.E Sample.AST (some Sample.Index) 10 "/main.cpp"
    { Visited := [], Results := [] } Sample.Vec Sample.VecInt (by decide) (by decide)
    (by decide)).2.2.2 []

/-- C20: a limit of 0 means unlimited in the walk. `getDocumentCodeLens`
called with limit 0 returns the output it returns with limit 2^32 - 1, and
for every limit the index is only asked requests with a non-zero limit: two
indexes that answer all such requests alike give the same output.
`resolveCodeLens`, in contrast, hands its limit to the reference search
unchanged: the locations it returns are those of
`findReferences(AST, Pos, Limit, Index)`, also for limit 0. -/
theorem limit_zero_means_unlimited (E : Externals) (AST : ParsedAST)
    (Index : Option SymbolIndex) (Path : String) :
    getDocumentCodeLens E AST Index 0 Path = getDocumentCodeLens E AST Index (2 ^ 32 - 1) Path ∧
    (∀ (Limit : Nat) (idx1 idx2 : SymbolIndex),
      (∀ Req : RelationsRequest, Req.Limit ≠ some 0 →
        idx1.relations Req = idx2.relations Req) →
      getDocumentCodeLens E AST (some idx1) Limit Path =
        getDocumentCodeLens E AST (some idx2) Limit Path) ∧
    (∀ (R : Range) (command : Option Command) (data : CodeLensResolveData) (Limit : Nat),
      resolveCodeLens E AST ⟨R, command, some data⟩ Limit Index Path =
        .ok
          { range := R
            command := some
              { command := E.SHOW_REFERENCES
                title :=
                  toString (E.findReferences AST R.start Limit Index).References.length ++
                    " references"
                argument := some
                  { uri := Path, position := R.start
                    locations :=
                      (E.findReferences AST R.start Limit Index).References.map
                        (fun Ref => Ref.Loc) } }
            data := none }) := by
  refine ⟨rfl, ?_, fun _ _ _ _ => rfl⟩
  intro Limit idx1 idx2 h
  have hne : effectiveLimit Limit ≠ 0 := by
    unfold effectiveLimit
    split
    · assumption
    · decide
  have hself : ∀ info st, visitSelf E AST (some idx1) (effectiveLimit Limit) Path info st =
      visitSelf E AST (some idx2) (effectiveLimit Limit) Path info st := by
    intro info st
    have hsub : subLocations E (some idx1) (effectiveLimit Limit) Path info =
        subLocations E (some idx2) (effectiveLimit Limit) Path info := by
      rw [subLocations_eq, subLocations_eq]
      cases derivedPredicate info.kind with
      | none => rfl
      | some R => exact lookupIndex_congr E (effectiveLimit Limit) Path idx1 idx2 info R hne h
    simp only [visitSelf, hsub]
  have hw := walk_congr_list E AST Path (some idx1) (some idx2) (effectiveLimit Limit)
    (effectiveLimit Limit) hself AST.LocalTopLevelDecls { Visited := [], Results := [] }
  show Except.ok (visitDecls E AST (some idx1) (effectiveLimit Limit) Path
      { Visited := [], Results := [] } AST.LocalTopLevelDecls).Results =
    Except.ok (visitDecls E AST (some idx2) (effectiveLimit Limit) Path
      { Visited := [], Results := [] } AST.LocalTopLevelDecls).Results
  rw [hw]

/-- The sample index and an index that differs from it only on requests
with limit 0 give the same output for the sample unit. -/
theorem limit_zero_means_unlimited_witness :
    getDocumentCodeLens Sample.E Sample.AST (some Sample.Index) 0 "/main.cpp" =
      getDocumentCodeLens Sample.E Sample.AST
        (some { relations := fun Req =>
          if Req.Limit = some 0 then [] else Sample.Index.relations Req }) 0 "/main.cpp" :=
  (limit_zero_means_unlimited Sample.E Sample.AST (some Sample.Index) "/main.cpp").2.1 0
    Sample.Index
    { relations := fun Req => if Req.Limit = some 0 then [] else Sample.Index.relations Req }
    (fun Req hReq => by simp [hReq])

end clangd
